import Mathlib

/-!
Verification model of the socketdb in-memory relational engine.

The definitions below are a shallow embedding of the Rust sources
(`src/table.rs`, `src/evaluator.rs`, `src/database.rs`,
`src/parser/expression.rs`, `src/parser/parser.rs`, `src/error.rs`):

* `BTreeMap<RowId, V>` is modelled as an association list sorted by key
  (`OMap`); the operations below keep the sortedness by construction, and
  iteration order of the Rust map corresponds to list order.
* Rust `i32` is modelled as unbounded `Int` (integer overflow behaviour is
  out of scope for the verified claims, which concern key sets, control
  flow and error variants, not wrapped arithmetic).
* The `Float`/`Double` column variants are omitted: floating point is not
  shallow-embeddable.  Every `Float`/`Double` arm in the sources is
  structurally identical to the `Int` arm (same key handling, same error
  strings), so the claims about row alignment are settled on the
  `Int`/`Str`/`Bool` fragment.
* Rust functions that can panic (`unwrap`, `todo!`, `panic!`,
  `unreachable!`, and the `panic!` in `Table::new`) are modelled with the
  `Res.crash` outcome, distinct from typed `Res.err` failures.
* Mutation through `&mut` that survives an early `?` return is modelled by
  returning the partially-mutated value together with the error.
* The network notification layer, the REPL and on-disk persistence are
  external collaborators and are not modelled.
-/

namespace SocketDB

/-- `RowId = usize` (`table.rs`). -/
abbrev RowId := Nat

/-- Sorted association list standing in for `BTreeMap<RowId, V>`. -/
abbrev OMap (v : Type) := List (Nat × v)

/-- `BTreeMap::insert`: ordered insert, replacing an existing key. -/
def omapInsert {v : Type} (m : OMap v) (k : Nat) (x : v) : OMap v :=
  match m with
  | [] => [(k, x)]
  | (k', y) :: rest =>
    if k < k' then (k, x) :: (k', y) :: rest
    else if k = k' then (k, x) :: rest
    else (k', y) :: omapInsert rest k x

/-- `BTreeMap::remove` (the value is discarded by all call sites). -/
def omapRemove {v : Type} (m : OMap v) (k : Nat) : OMap v :=
  m.filter (fun p => p.1 ≠ k)

/-- `BTreeMap::keys` in ascending order. -/
def omapKeys {v : Type} (m : OMap v) : List Nat :=
  m.map Prod.fst

/-- `BTreeMap::get`. -/
def omapGet {v : Type} (m : OMap v) (k : Nat) : Option v :=
  List.lookup k m

/-- `d.keys().max().copied().unwrap_or(0)` (`ColumnData::len`). -/
def omapMaxKey {v : Type} (m : OMap v) : Nat :=
  (omapKeys m).foldr Nat.max 0

/-- The pairs kept by `left.iter().zip(right).filter(|((lk,_),(rk,_))| lk == rk)`:
the two maps are zipped positionally and only the positions where
the keys coincide survive. -/
def zipPairs {a b : Type} (l : OMap a) (r : OMap b) : List ((Nat × a) × (Nat × b)) :=
  (l.zip r).filter (fun p => p.1.1 == p.2.1)

/-- The full `zip … filter … map … collect` pipeline shared by every binary
operator arm of `Evaluator::eval`.  The collected keys are a sublist of the
(ascending) left keys, so collecting into a `BTreeMap` reproduces the list. -/
def zipFilter {a b c : Type} (f : a → b → c) (l : OMap a) (r : OMap b) : OMap c :=
  (zipPairs l r).map (fun p => (p.1.1, f p.1.2 p.2.2))

/-- Positional key matching: the keys surviving the zip-filter pipeline. -/
def posMatch (a b : List Nat) : List Nat :=
  ((a.zip b).filter (fun p => p.1 == p.2)).map Prod.fst

/-- `Literal` (`parser/expression.rs`), minus the unembeddable float variants. -/
inductive Literal
  | int (i : Int)
  | str (s : String)
  | bool (b : Bool)
  | null
deriving DecidableEq, Repr

/-- `DataType` (`table.rs`). -/
inductive DataType
  | int
  | str
  | bool
  | invalid
deriving DecidableEq, Repr

/-- `PKType` (`table.rs`). -/
inductive PKType
  | int (i : Int)
  | str (s : String)
deriving DecidableEq, Repr

/-- `ColumnData` (`table.rs`): sparse typed storage keyed by `RowId`. -/
inductive ColumnData
  | int (m : OMap Int)
  | str (m : OMap String)
  | bool (m : OMap Bool)
deriving DecidableEq, Repr

/-- `Error` (`error.rs`), restricted to the variants reachable from the core
(the IO/parser variants belong to external collaborators). -/
inductive Error
  | invalidQuery (msg : String)
  | columnNotFound (col table : String)
  | invalidOperation (msg : String)
  | tableNotFound (name : String)
  | tableAlreadyExists (name : String)
  | unsupported (msg : String)
  | evaluationError (msg : String)
deriving DecidableEq, Repr

/-- Outcome of running a piece of the Rust code: a value, a typed `Err`, or a
process abort (`panic!`, `todo!`, `unwrap` on `None`, `unreachable!`). -/
inductive Res (α : Type)
  | ok (a : α)
  | err (e : Error)
  | crash
deriving DecidableEq, Repr

/-- `true` iff the outcome is a typed `Error::InvalidOperation`. -/
def Res.isErrInvalidOperation {α : Type} : Res α → Bool
  | .err (.invalidOperation _) => true
  | _ => false

/-- ASCII lowercasing of one character (kernel-reducible stand-in for the
`char::to_lowercase` underlying Rust's `str::to_lowercase`; all names in
this development are ASCII). -/
def lowerChar (c : Char) : Char :=
  if 'A' ≤ c ∧ c ≤ 'Z' then Char.ofNat (c.toNat + 32) else c

/-- ASCII uppercasing of one character. -/
def upperChar (c : Char) : Char :=
  if 'a' ≤ c ∧ c ≤ 'z' then Char.ofNat (c.toNat - 32) else c

/-- `str::to_lowercase`. -/
def strLower (s : String) : String := ⟨s.data.map lowerChar⟩

/-- `str::to_uppercase`. -/
def strUpper (s : String) : String := ⟨s.data.map upperChar⟩

namespace ColumnData

/-- `DataType::from(&ColumnData)` (`table.rs`). -/
def dataType : ColumnData → DataType
  | .int _ => .int
  | .str _ => .str
  | .bool _ => .bool

/-- `ColumnData::update` (`table.rs`): overwrite one cell, failing on a
variant mismatch. -/
def update (cd : ColumnData) (rowId : RowId) (lit : Literal) : Except Error ColumnData :=
  match cd, lit with
  | .int m, .int v => .ok (.int (omapInsert m rowId v))
  | .str m, .str v => .ok (.str (omapInsert m rowId v))
  | .bool m, .bool v => .ok (.bool (omapInsert m rowId v))
  | _, _ => .error (.invalidOperation "invalid data type on update")

/-- `ColumnData::delete` (`table.rs`). -/
def delete (cd : ColumnData) (rowId : RowId) : ColumnData :=
  match cd with
  | .int m => .int (omapRemove m rowId)
  | .str m => .str (omapRemove m rowId)
  | .bool m => .bool (omapRemove m rowId)

/-- `ColumnData::truncate` (`table.rs`): clear the map. -/
def truncate : ColumnData → ColumnData
  | .int _ => .int []
  | .str _ => .str []
  | .bool _ => .bool []

/-- `ColumnData::keys` (`table.rs`). -/
def keys : ColumnData → List RowId
  | .int m => omapKeys m
  | .str m => omapKeys m
  | .bool m => omapKeys m

/-- The body of `ColumnData::keys_where_true` on the `Bool` arm. -/
def trueKeysOf (m : OMap Bool) : List RowId :=
  (m.filter (fun p => p.2)).map (fun p => p.1)

/-- `ColumnData::keys_where_true` (`table.rs`). -/
def keysWhereTrue : ColumnData → Except Error (List RowId)
  | .bool m => .ok (trueKeysOf m)
  | _ => .error (.invalidOperation "cannot select true only keys for non boolean")

/-- `ColumnData::retain_keys` (`table.rs`). -/
def retainKeys (cd : ColumnData) (ks : List RowId) : ColumnData :=
  match cd with
  | .int m => .int (m.filter (fun p => ks.contains p.1))
  | .str m => .str (m.filter (fun p => ks.contains p.1))
  | .bool m => .bool (m.filter (fun p => ks.contains p.1))

/-- `ColumnData::len` (`table.rs`): the maximum stored key, `0` if empty. -/
def len : ColumnData → RowId
  | .int m => omapMaxKey m
  | .str m => omapMaxKey m
  | .bool m => omapMaxKey m

/-- `ColumnData::is_empty` (`table.rs`). -/
def isEmpty : ColumnData → Bool
  | .int m => m.isEmpty
  | .str m => m.isEmpty
  | .bool m => m.isEmpty

/-- `ColumnData::get_as_string` (`table.rs`). -/
def getAsString (cd : ColumnData) (id : RowId) : Option String :=
  match cd with
  | .int m => (omapGet m id).map (fun v => toString v)
  | .str m => (omapGet m id).map (fun v => v)
  | .bool m => (omapGet m id).map (fun v => toString v)

/-- `ColumnData::fill_with_literal` (`table.rs`): a column holding `lit` at
every `RowId` from `0` through `till` inclusive.  The ascending inserts of
the Rust loop produce exactly this sorted association list. -/
def fillWithLiteral (lit : Literal) (till : RowId) : Except Error ColumnData :=
  match lit with
  | .int x => .ok (.int ((List.range (till + 1)).map (fun i => (i, x))))
  | .str x => .ok (.str ((List.range (till + 1)).map (fun i => (i, x))))
  | .bool x => .ok (.bool ((List.range (till + 1)).map (fun i => (i, x))))
  | .null => .error (.invalidOperation "cannot create a column data from null literal")

/-- `true` iff the data is the `Bool` variant. -/
def isBool : ColumnData → Bool
  | .bool _ => true
  | _ => false

/-- The true-`RowId` list of a column's data (`[]` on non-`Bool` variants;
the Select filter path panics before ever using that default). -/
def trueKeysD : ColumnData → List RowId
  | .bool m => trueKeysOf m
  | _ => []

end ColumnData

/-- Variant agreement between stored data and a literal: exactly the pairs
`ColumnData::update` accepts. -/
def litMatches : ColumnData → Literal → Bool
  | .int _, .int _ => true
  | .str _, .str _ => true
  | .bool _, .bool _ => true
  | _, _ => false

/-- `Binary` (`parser/expression.rs`). -/
inductive Binary
  | plus
  | minus
  | mul
  | div
  | rem
  | eq
  | lt
  | gt
  | ltEq
  | gtEq
  | notEq
deriving DecidableEq, Repr

/-- The six comparison operators of `Binary`. -/
def Binary.isComparison : Binary → Bool
  | .eq | .lt | .gt | .ltEq | .gtEq | .notEq => true
  | _ => false

/-- `Unary` (`parser/expression.rs`). -/
inductive Unary
  | not
  | plus
  | minus
deriving DecidableEq, Repr

/-- `Ident` (`parser/expression.rs`). -/
inductive Ident
  | wildcard
  | named (n : String)
deriving DecidableEq, Repr

/-- `Expression` (`parser/expression.rs`).  `Expression.none` is the
no-predicate sentinel `Expression::None`. -/
inductive Expression
  | literal (l : Literal)
  | ident (i : Ident)
  | isFalse (e : Expression)
  | isTrue (e : Expression)
  | isNull (e : Expression)
  | isNotNull (e : Expression)
  | unary (op : Unary) (e : Expression)
  | binary (op : Binary) (left right : Expression)
  | none
deriving DecidableEq, Repr

/-- `ColumnHeader` (`table.rs`). -/
structure ColumnHeader where
  name : String
  hidden : Bool
  datatype : DataType
  nullable : Bool
  isPk : Bool
  lastRowId : Option RowId
deriving DecidableEq, Repr

/-- `Column` (`table.rs`). -/
structure Column where
  header : ColumnHeader
  data : ColumnData
deriving DecidableEq, Repr

/-- `Table` (`table.rs`); `pk_map : BiBTreeMap<PKType, RowId>` is modelled as
an association list of pairs. -/
structure Table where
  name : String
  columns : List Column
  pkMap : List (PKType × RowId)
deriving DecidableEq, Repr

/-- `Table::col_from_name` (`table.rs`): case-insensitive lookup. -/
def Table.colFromName (t : Table) (n : String) : Option Column :=
  t.columns.find? (fun c => strLower c.header.name == strLower n)

/-- `OutColumn` (`evaluator.rs`). -/
structure OutColumn where
  name : String
  data : ColumnData
deriving DecidableEq, Repr

/-- `From<&Column> for OutColumn` (`evaluator.rs`). -/
def colToOut (c : Column) : OutColumn :=
  { name := c.header.name, data := c.data }

/-- `From<Literal> for OutColumn` (`evaluator.rs`): a single-row column at
`RowId` 0 named `?column?`.  The `Literal::Null` arm is `unreachable!()` in
the source, modelled as `Res.crash`. -/
def litIntoOut : Literal → Res OutColumn
  | .int l => .ok { name := "?column?", data := .int [(0, l)] }
  | .str s => .ok { name := "?column?", data := .str [(0, s)] }
  | .bool b => .ok { name := "?column?", data := .bool [(0, b)] }
  | .null => .crash

namespace Evaluator

/-- The `Expression::Ident` arm of `Evaluator::eval` (`evaluator.rs`).  The
`Unary::Plus`/`Unary::Minus` arms re-enter `eval` with a rebuilt
`Expression::Ident`, which dispatches straight here. -/
def evalIdent (table : Option Table) (i : Ident) : Res (List OutColumn) :=
  match table with
  | Option.none => .err (.evaluationError "cannot evaluate identifier without table")
  | some t =>
    match i with
    | .wildcard => .ok (t.columns.map colToOut)
    | .named n =>
      match t.colFromName n with
      | some c => .ok [colToOut c]
      | Option.none => .err (.columnNotFound n t.name)

/-- The per-column loop of the `Unary::Minus`-on-identifier arm:
numerically negate `Int` columns, fail on `Bool`/`Str`. -/
def negateCols : List OutColumn → Res (List OutColumn)
  | [] => .ok []
  | c :: cs =>
    match c.data with
    | .int m =>
      match negateCols cs with
      | .ok rest => .ok ({ c with data := .int (m.map (fun p => (p.1, -p.2))) } :: rest)
      | .err e => .err e
      | .crash => .crash
    | _ => .err (.unsupported "unary operator minus on non numeric type column")

/-- The broadcast step shared by the six comparison arms of
`Evaluator::eval`: when the right-hand expression is a bare literal it is
expanded with `fill_with_literal` up to the left column's `len()`, otherwise
the right column's data is used as-is. -/
def rightDataFor (rightExpr : Expression) (ldata rdata : ColumnData) : Res ColumnData :=
  match rightExpr with
  | .literal lit =>
    match ColumnData.fillWithLiteral lit ldata.len with
    | .ok d => .ok d
    | .error e => .err e
  | _ => .ok rdata

/-- Rust `bool` ordering: `false < true`. -/
def boolLt (a b : Bool) : Bool := !a && b

/-- Rust `bool` ordering: `a <= b`. -/
def boolLe (a b : Bool) : Bool := !a || b

/-- The `Expression::Binary` operator dispatch of `Evaluator::eval`
(`evaluator.rs`, lines 313-734), for two single-column operands.  Each arm is
the `zip`/`filter`/`map` pipeline of the source; `Div`/`Rem` crash on a zero
`Int` divisor among the kept pairs (Rust `i32` division panics).  Note the
`GtEq` arm computes `lv <= rv` exactly as the source does. -/
def applyBinaryOp (op : Binary) (rightExpr : Expression) (l r : OutColumn) :
    Res ColumnData :=
  match op with
  | .plus =>
    match l.data, r.data with
    | .str lm, .str rm => .ok (.str (zipFilter (fun a b => a ++ b) lm rm))
    | .int lm, .int rm => .ok (.int (zipFilter (fun a b => a + b) lm rm))
    | _, _ => .err (.invalidQuery "binary op add between two different types")
  | .minus =>
    match l.data, r.data with
    | .int lm, .int rm => .ok (.int (zipFilter (fun a b => a - b) lm rm))
    | _, _ => .err (.invalidQuery "binary op minus on invalid type")
  | .mul =>
    match l.data, r.data with
    | .int lm, .int rm => .ok (.int (zipFilter (fun a b => a * b) lm rm))
    | _, _ => .err (.invalidQuery "binary op mul on invalid type")
  | .div =>
    match l.data, r.data with
    | .int lm, .int rm =>
      if (zipPairs lm rm).any (fun p => p.2.2 == 0) then .crash
      else .ok (.int (zipFilter (fun a b => Int.tdiv a b) lm rm))
    | _, _ => .err (.invalidQuery "binary op div on invalid type")
  | .rem =>
    match l.data, r.data with
    | .int lm, .int rm =>
      if (zipPairs lm rm).any (fun p => p.2.2 == 0) then .crash
      else .ok (.int (zipFilter (fun a b => Int.tmod a b) lm rm))
    | _, _ => .err (.invalidQuery "binary op modulo on invalid type")
  | .eq =>
    match rightDataFor rightExpr l.data r.data with
    | .ok rd =>
      match l.data, rd with
      | .int lm, .int rm => .ok (.bool (zipFilter (fun a b => a == b) lm rm))
      | .bool lm, .bool rm => .ok (.bool (zipFilter (fun a b => a == b) lm rm))
      | .str lm, .str rm => .ok (.bool (zipFilter (fun a b => a == b) lm rm))
      | _, _ => .err (.invalidQuery "binary op equals on invalid type")
    | .err e => .err e
    | .crash => .crash
  | .lt =>
    match rightDataFor rightExpr l.data r.data with
    | .ok rd =>
      match l.data, rd with
      | .int lm, .int rm => .ok (.bool (zipFilter (fun a b => decide (a < b)) lm rm))
      | .bool lm, .bool rm => .ok (.bool (zipFilter boolLt lm rm))
      | _, _ => .err (.invalidQuery "binary op less than on invalid type")
    | .err e => .err e
    | .crash => .crash
  | .gt =>
    match rightDataFor rightExpr l.data r.data with
    | .ok rd =>
      match l.data, rd with
      | .int lm, .int rm => .ok (.bool (zipFilter (fun a b => decide (b < a)) lm rm))
      | .bool lm, .bool rm => .ok (.bool (zipFilter (fun a b => boolLt b a) lm rm))
      | _, _ => .err (.invalidQuery "binary op greater than on invalid type")
    | .err e => .err e
    | .crash => .crash
  | .ltEq =>
    match rightDataFor rightExpr l.data r.data with
    | .ok rd =>
      match l.data, rd with
      | .int lm, .int rm => .ok (.bool (zipFilter (fun a b => decide (a ≤ b)) lm rm))
      | .bool lm, .bool rm => .ok (.bool (zipFilter boolLe lm rm))
      | _, _ => .err (.invalidQuery "binary op less than eq on invalid type")
    | .err e => .err e
    | .crash => .crash
  | .gtEq =>
    -- The source's GtEq arm compares with `lv <= rv` (evaluator.rs:659),
    -- identical to the LtEq arm.
    match rightDataFor rightExpr l.data r.data with
    | .ok rd =>
      match l.data, rd with
      | .int lm, .int rm => .ok (.bool (zipFilter (fun a b => decide (a ≤ b)) lm rm))
      | .bool lm, .bool rm => .ok (.bool (zipFilter boolLe lm rm))
      | _, _ => .err (.invalidQuery "binary op greater than eq on invalid type")
    | .err e => .err e
    | .crash => .crash
  | .notEq =>
    match rightDataFor rightExpr l.data r.data with
    | .ok rd =>
      match l.data, rd with
      | .int lm, .int rm => .ok (.bool (zipFilter (fun a b => a != b) lm rm))
      | .bool lm, .bool rm => .ok (.bool (zipFilter (fun a b => a != b) lm rm))
      | .str lm, .str rm => .ok (.bool (zipFilter (fun a b => a != b) lm rm))
      | _, _ => .err (.invalidQuery "binary op not equal on invalid type")
    | .err e => .err e
    | .crash => .crash

/-- `Evaluator::eval` (`evaluator.rs`): pure map from an optionally bound
table and an expression to a list of `OutColumn`s, a typed error, or a
crash. -/
def eval (table : Option Table) : Expression → Res (List OutColumn)
  | .literal l =>
    match l with
    | .null => .ok []
    | _ =>
      match litIntoOut l with
      | .ok c => .ok [c]
      | .err e => .err e
      | .crash => .crash
  | .ident i => evalIdent table i
  | .isFalse e =>
    match e with
    | .literal (.bool b) =>
      .ok (if !b then (match table with
                       | some t => t.columns.map colToOut
                       | Option.none => []) else [])
    | .literal _ => .err (.invalidOperation "is false on non boolean literals")
    | .ident .wildcard => .err (.invalidOperation "is false with wildcard (*) operator")
    | .ident (.named n) =>
      match table with
      | Option.none =>
        .err (.invalidOperation ("is false with identifier " ++ n ++ " with no table"))
      | some t =>
        match t.colFromName n with
        | Option.none => .err (.columnNotFound n t.name)
        | some c =>
          match c.data with
          | .bool m => .ok [{ name := "?column?", data := .bool (m.filter (fun p => !p.2)) }]
          | _ => .err (.invalidOperation
              "cannot apply `is false` in column with datatype other than bool")
    | _ => .err (.unsupported "is false with other than literal or identifier")
  | .isTrue e =>
    -- the literal arm of IsTrue repeats the IsFalse logic verbatim in the
    -- source, `if !b` included
    match e with
    | .literal (.bool b) =>
      .ok (if !b then (match table with
                       | some t => t.columns.map colToOut
                       | Option.none => []) else [])
    | .literal _ => .err (.invalidOperation "is true on non boolean literals")
    | .ident .wildcard => .err (.invalidOperation "is true with wildcard (*) operator")
    | .ident (.named n) =>
      match table with
      | Option.none =>
        .err (.invalidOperation ("is true with identifier " ++ n ++ " with no table"))
      | some t =>
        match t.colFromName n with
        | Option.none => .err (.columnNotFound n t.name)
        | some c =>
          match c.data with
          | .bool m => .ok [{ name := "?column?", data := .bool (m.filter (fun p => p.2)) }]
          | _ => .err (.invalidOperation
              "cannot apply `is true` in column with datatype other than bool")
    | _ => .err (.unsupported "is true with other than literal or identifier")
  | .unary .not e =>
    match e with
    | .literal (.bool b) => .ok [{ name := "?column?", data := .bool [(0, !b)] }]
    | .literal _ => .crash  -- todo!() in the source
    | .ident (.named n) =>
      match table with
      | Option.none =>
        .err (.unsupported "identifier without column name to apply unary operator")
      | some t =>
        match t.colFromName n with
        | Option.none => .crash  -- col_from_name(..).unwrap() on None
        | some c =>
          match c.data with
          | .bool m => .ok [{ name := "?column?", data := .bool (m.map (fun p => (p.1, !p.2))) }]
          | _ => .err (.unsupported "not operator on non boolean column")
    | .ident .wildcard => .crash  -- todo!() in the source
    | _ => .crash  -- todo!() in the source
  | .unary .plus e =>
    match e with
    | .literal l =>
      match litIntoOut l with
      | .ok c => .ok [c]
      | .err e' => .err e'
      | .crash => .crash
    | .ident i => evalIdent table i
    | _ => .err (.unsupported "unary operator plus on non literal or non column")
  | .unary .minus e =>
    match e with
    | .literal l =>
      match l with
      | .int i =>
        match litIntoOut (.int (-i)) with
        | .ok c => .ok [c]
        | .err e' => .err e'
        | .crash => .crash
      | .null =>
        match litIntoOut .null with
        | .ok c => .ok [c]
        | .err e' => .err e'
        | .crash => .crash
      | .str _ => .err (.unsupported "unary operator minus on non numeric type")
      | .bool _ => .err (.unsupported "unary operator minus on non numeric type")
    | .ident i =>
      match evalIdent table i with
      | .ok cols => negateCols cols
      | .err e' => .err e'
      | .crash => .crash
    | _ => .err (.unsupported "unary operator on non literal or column")
  | .binary op le re =>
    match eval table le with
    | .err e => .err e
    | .crash => .crash
    | .ok lcols =>
      match eval table re with
      | .err e => .err e
      | .crash => .crash
      | .ok rcols =>
        -- `left.len() != 1 || right.len() != 1` rejects everything but a
        -- single column on each side
        match lcols, rcols with
        | [l], [r] =>
          match applyBinaryOp op re l r with
          | .ok d => .ok [{ name := l.name, data := d }]
          | .err e => .err e
          | .crash => .crash
        | _, _ => .err (.invalidQuery "binary operator with more than one column")
  | .none => .err (.invalidOperation "none operation")
  | .isNull _ => .err (.unsupported "unsupported query")
  | .isNotNull _ => .err (.unsupported "unsupported query")

end Evaluator

/-- `Column::insert` (`table.rs`): sets `last_row_id` first, then writes the
value, failing (with the header already updated) on a variant mismatch. -/
def Column.insertLit (c : Column) (rowId : RowId) (lit : Literal) :
    Column × Option Error :=
  match c.data, lit with
  | .int m, .int v =>
    ({ header := { c.header with lastRowId := some rowId },
       data := .int (omapInsert m rowId v) }, Option.none)
  | .str m, .str v =>
    ({ header := { c.header with lastRowId := some rowId },
       data := .str (omapInsert m rowId v) }, Option.none)
  | .bool m, .bool v =>
    ({ header := { c.header with lastRowId := some rowId },
       data := .bool (omapInsert m rowId v) }, Option.none)
  | _, _ =>
    ({ header := { c.header with lastRowId := some rowId }, data := c.data },
     some (.invalidQuery "invalid data type"))

/-- Maximum of two `Option RowId`s under the Rust `Option` ordering
(`None` smallest). -/
def optMax : Option RowId → Option RowId → Option RowId
  | Option.none, b => b
  | some a, Option.none => some a
  | some a, some b => some (Nat.max a b)

/-- `.map(|v| v + 1).unwrap_or(0)` (`Table::next_row_id`). -/
def optNext : Option RowId → RowId
  | some v => v + 1
  | Option.none => 0

/-- `Table::last_row_id` (`table.rs`): maximum of the per-column
`last_row_id` options (`None` smallest), flattened. -/
def Table.lastRowId (t : Table) : Option RowId :=
  (t.columns.map (fun c => c.header.lastRowId)).foldr optMax Option.none

/-- `Table::next_row_id` (`table.rs`). -/
def Table.nextRowId (t : Table) : RowId :=
  optNext t.lastRowId

/-- `Table::truncate` (`table.rs`): clears every column's map, leaving the
headers (including `last_row_id`) untouched. -/
def Table.truncate (t : Table) : Table :=
  { t with columns := t.columns.map (fun c => { c with data := c.data.truncate }) }

/-- One row of `Table::insert`'s inner loop
(`cols.iter_mut().filter(keep).zip(datum)`): walk the columns, pairing each
kept column with the next datum literal; stop when the datum is exhausted or
a column insert fails.  The `Bool` result records whether any column insert
ran (ghost instrumentation for the RowId-allocation claims). -/
def insertRow : List Column → (String → Bool) → RowId → List Literal →
    List Column × Bool × Option Error
  | [], _, _, _ => ([], false, Option.none)
  | c :: cs, keep, rid, datum =>
    if keep c.header.name then
      match datum with
      | [] => (c :: cs, false, Option.none)
      | v :: vs =>
        match Column.insertLit c rid v with
        | (c', Option.none) =>
          let (cs', _, e) := insertRow cs keep rid vs
          (c' :: cs', true, e)
        | (c', some e) => (c' :: cs, true, some e)
    else
      let (cs', touched, e) := insertRow cs keep rid datum
      (c :: cs', touched, e)

/-- The outer loop of `Table::insert`: one `insertRow` per datum, with the
row id incremented after each datum; the first error aborts the remaining
rows but keeps the mutations already made.  The returned list collects the
row ids that were actually written to some column (ghost instrumentation). -/
def insertRows (keep : String → Bool) :
    List Column → RowId → List (List Literal) →
    List Column × List RowId × Option Error
  | cols, _, [] => (cols, [], Option.none)
  | cols, rid, datum :: rest =>
    match insertRow cols keep rid datum with
    | (cols', touched, Option.none) =>
      let (cols'', ids, e) := insertRows keep cols' (rid + 1) rest
      (cols'', (if touched then [rid] else []) ++ ids, e)
    | (cols', touched, some e) => (cols', if touched then [rid] else [], some e)

/-- The effective column-name list of `Table::insert`: an empty list
defaults to all declared columns in definition order. -/
def Table.insertNames (t : Table) (columns : List String) : List String :=
  if columns.isEmpty then t.columns.map (fun c => c.header.name) else columns

/-- `Table::insert` (`table.rs`). -/
def Table.insert (t : Table) (columns : List String) (data : List (List Literal)) :
    Table × Option Error :=
  ({ t with
      columns := (insertRows (fun n => (t.insertNames columns).contains n)
        t.columns t.nextRowId data).1 },
   (insertRows (fun n => (t.insertNames columns).contains n)
      t.columns t.nextRowId data).2.2)

/-- The row ids handed out by a `Table::insert` call (ghost projection of
`insertRows`). -/
def Table.insertAssigned (t : Table) (columns : List String)
    (data : List (List Literal)) : List RowId :=
  (insertRows (fun n => (t.insertNames columns).contains n)
    t.columns t.nextRowId data).2.1

/-- The per-row inner loop of `Table::update` on one column. -/
def updateRows (lit : Literal) : ColumnData → List RowId → ColumnData × Option Error
  | cd, [] => (cd, Option.none)
  | cd, r :: rs =>
    match cd.update r lit with
    | .ok cd' => updateRows lit cd' rs
    | .error e => (cd, some e)

/-- `HashMap::get` on the assignment map, modelled as first-match lookup. -/
def lookupAssign (assignments : List (String × Literal)) (k : String) : Option Literal :=
  (assignments.find? (fun p => p.1 == k)).map Prod.snd

/-- The column walk of `Table::update`: skip unassigned columns, reject an
assigned primary-key column with `Error::Unsupported`, otherwise overwrite
the selected rows; the first error keeps earlier mutations. -/
def updateCols (assignments : List (String × Literal)) (selected : List RowId) :
    List Column → List Column × Option Error
  | [] => ([], Option.none)
  | c :: cs =>
    match lookupAssign assignments (strLower c.header.name) with
    | Option.none =>
      let (cs', e) := updateCols assignments selected cs
      (c :: cs', e)
    | some v =>
      if c.header.isPk then
        (c :: cs, some (.unsupported "updating the primary is not allowed"))
      else
        match updateRows v c.data selected with
        | (d', Option.none) =>
          let (cs', e) := updateCols assignments selected cs
          ({ c with data := d' } :: cs', e)
        | (d', some e) => ({ c with data := d' } :: cs, some e)

/-- `Table::update` (`table.rs`). -/
def Table.update (t : Table) (assignments : List (String × Literal))
    (selected : List RowId) : Table × Option Error :=
  ({ t with columns := (updateCols assignments selected t.columns).1 },
   (updateCols assignments selected t.columns).2)

/-- `Table::delete` (`table.rs`): the `for row_id in selected` loop dropping
each given row id from every column and from the primary-key index. -/
def Table.delete (t : Table) : List RowId → Table
  | [] => t
  | rid :: rest =>
    Table.delete
      { t with
        columns := t.columns.map (fun c => { c with data := c.data.delete rid })
        pkMap := t.pkMap.filter (fun p => p.2 ≠ rid) }
      rest

/-- The column data types of `sqlparser::ast::DataType` that `Table::new`
accepts, restricted to the embedded fragment. -/
inductive ColDefType
  | varchar
  | int
  | bool
deriving DecidableEq, Repr

/-- `sqlparser::ast::ColumnOption`, restricted to the arms `Table::new`
handles. -/
inductive ColOption
  | null
  | notNull
  | unique (isPrimary : Bool)
deriving DecidableEq, Repr

/-- `sqlparser::ast::ColumnDef`, restricted to what `Table::new` reads. -/
structure ColumnDef where
  name : String
  dataType : ColDefType
  options : List ColOption
deriving DecidableEq, Repr

/-- The option fold of `Table::new`: `(is_pk, nullable, unique)` starting
from `(false, true, false)`. -/
def applyColOptions (options : List ColOption) : Bool × Bool × Bool :=
  options.foldl
    (fun acc o =>
      match o with
      | .null => (acc.1, true, acc.2.2)
      | .notNull => (acc.1, false, acc.2.2)
      | .unique isPrimary => (isPrimary, false, true))
    (false, true, false)

/-- The per-definition column builder of `Table::new`. -/
def buildColumn (c : ColumnDef) : Column :=
  let data : ColumnData :=
    match c.dataType with
    | .varchar => .str []
    | .int => .int []
    | .bool => .bool []
  let opts := applyColOptions c.options
  { header :=
      { name := c.name
        nullable := opts.2.1
        isPk := opts.1
        datatype := data.dataType
        lastRowId := Option.none
        hidden := false }
    data := data }

/-- `Table::new` (`table.rs`): builds the columns, then panics
(`Option.none` here) when no column is marked primary key. -/
def Table.new (name : String) (columnDefs : List ColumnDef) : Option Table :=
  let columns := columnDefs.map buildColumn
  if columns.any (fun c => c.header.isPk) then
    some { name := name, columns := columns, pkMap := [] }
  else
    Option.none

/-- `Row` (`database.rs`). -/
structure Row where
  items : List String
deriving DecidableEq, Repr

/-- `View` (`database.rs`). -/
structure View where
  columns : List String
  rows : List Row
deriving DecidableEq, Repr

/-- `View::new` (`database.rs`): render `RowId`s `0 ..= max len` as strings,
dropping any row whose cells are all empty. -/
def View.new (cols : List OutColumn) : View :=
  let maxRows := (cols.map (fun c => c.data.len)).foldr Nat.max 0
  let rows :=
    (List.range (maxRows + 1)).filterMap
      (fun i =>
        let row := cols.map (fun c => (c.data.getAsString i).getD "")
        if row.all (fun x => x.isEmpty) then Option.none else some { items := row })
  { columns := cols.map (fun c => c.name), rows := rows }

/-- `Select` (`parser/select.rs`).  `fromTable` is the `from` field. -/
structure Select where
  fromTable : Option String
  projection : List Expression
  selection : List Expression
deriving Repr

/-- `Query` (`parser/parser.rs`); `assignments` is the `HashMap` modelled as
an association list. -/
inductive Query
  | createTable (name : String) (columns : List ColumnDef)
  | truncate (name : String)
  | select (s : Select)
  | insert (table : String) (columns : List String) (sources : List (List Literal))
  | update (table : String) (assignments : List (String × Literal))
      (selection : Option Expression)
  | delete (table : String) (selection : Option Expression)
  | drop (table : String)
deriving Repr

/-- `Database` (`database.rs`); the subscriber registry and channel receiver
are external collaborators and are not modelled. -/
structure Database where
  tables : List Table
deriving DecidableEq, Repr

/-- `tables.iter_mut().find(case-insensitive name) ` followed by an in-place
mutation: rebuild the list with the first matching table replaced, or
`Option.none` when no table matches. -/
def mapFirstTable {α : Type} (name : String) (f : Table → Table × α) :
    List Table → Option (List Table × α)
  | [] => Option.none
  | t :: ts =>
    if strLower t.name == strLower name then
      some ((f t).1 :: ts, (f t).2)
    else
      match mapFirstTable name f ts with
      | some (ts', a) => some (t :: ts', a)
      | Option.none => Option.none

/-- The selection loop of the `Query::Select` arm: evaluate every selection
expression, skipping the `Expression::None` sentinel. -/
def evalSelections (table : Option Table) : List Expression → Res (List OutColumn)
  | [] => .ok []
  | e :: es =>
    match e with
    | .none => evalSelections table es
    | _ =>
      match Evaluator.eval table e with
      | .ok cs =>
        match evalSelections table es with
        | .ok rest => .ok (cs ++ rest)
        | .err e' => .err e'
        | .crash => .crash
      | .err e' => .err e'
      | .crash => .crash

/-- The projection loop of the `Query::Select` arm. -/
def evalExprs (table : Option Table) : List Expression → Res (List OutColumn)
  | [] => .ok []
  | e :: es =>
    match Evaluator.eval table e with
    | .ok cs =>
      match evalExprs table es with
      | .ok rest => .ok (cs ++ rest)
      | .err e' => .err e'
      | .crash => .crash
    | .err e' => .err e'
    | .crash => .crash

/-- The inner filtering loop of `Query::Select`: one projected column
against every selected column; a non-`Bool` selected column hits
`panic!("not possible")`. -/
def crossOne (p : OutColumn) : List OutColumn → Res (List OutColumn)
  | [] => .ok []
  | s :: ss =>
    match s.data with
    | .bool m =>
      match crossOne p ss with
      | .ok rest =>
        .ok ({ name := p.name, data := p.data.retainKeys (ColumnData.trueKeysOf m) } :: rest)
      | .err e => .err e
      | .crash => .crash
    | _ => .crash

/-- The outer filtering loop of `Query::Select`. -/
def crossAll (selected : List OutColumn) : List OutColumn → Res (List OutColumn)
  | [] => .ok []
  | p :: ps =>
    match crossOne p selected with
    | .ok here =>
      match crossAll selected ps with
      | .ok rest => .ok (here ++ rest)
      | .err e => .err e
      | .crash => .crash
    | .err e => .err e
    | .crash => .crash

/-- The `Query::Select` arm of `Database::execute` up to the `View`
wrapping: evaluate selections and projections; with no selection columns
return the projections unfiltered, otherwise filter every (projected,
selected) pair. -/
def selectResult (table : Option Table) (s : Select) : Res (List OutColumn) :=
  match evalSelections table s.selection with
  | .ok selected =>
    match evalExprs table s.projection with
    | .ok projected =>
      if selected.isEmpty then .ok projected
      else crossAll selected projected
    | .err e => .err e
    | .crash => .crash
  | .err e => .err e
  | .crash => .crash

/-- The body of the `Query::Update` arm acting on the resolved table. -/
def updateTableStmt (assignments : List (String × Literal))
    (selection : Option Expression) (t : Table) : Table × Res Unit :=
  match selection with
  | Option.none => (t, .err (.unsupported "update without selection (where)"))
  | some sel =>
    match Evaluator.eval (some t) sel with
    | .err e => (t, .err e)
    | .crash => (t, .crash)
    | .ok selectedCols =>
      -- `selected.len() != 1` rejects everything but a single column
      match selectedCols with
      | [sc] =>
        match sc.data.keysWhereTrue with
        | .error e => (t, .err e)
        | .ok keys =>
          match (t.update assignments keys).2 with
          | Option.none => ((t.update assignments keys).1, .ok ())
          | some e => ((t.update assignments keys).1, .err e)
      | _ => (t, .err (.invalidOperation "more than one column found in selection"))

/-- The body of the `Query::Delete` arm acting on the resolved table: with a
selection, mirror the update selection handling and delete; without one,
truncate. -/
def deleteTableStmt (selection : Option Expression) (t : Table) : Table × Res Unit :=
  match selection with
  | Option.none => (t.truncate, .ok ())
  | some sel =>
    match Evaluator.eval (some t) sel with
    | .err e => (t, .err e)
    | .crash => (t, .crash)
    | .ok selectedCols =>
      match selectedCols with
      | [sc] =>
        match sc.data.keysWhereTrue with
        | .error e => (t, .err e)
        | .ok keys => (t.delete keys, .ok ())
      | _ => (t, .err (.invalidOperation "more than one column found in selection"))

/-- `Database::execute` (`database.rs`).  The returned `Database` is the
post-statement state (partial mutations survive a returned error, matching
the `&mut` discipline of the source); the `Res` is the returned
`Result<Option<View>>`, with `crash` for the panicking paths. -/
def Database.execute (db : Database) : Query → Database × Res (Option View)
  | .createTable name columnDefs =>
    if db.tables.any (fun t => strLower t.name == strLower name) then
      (db, .err (.tableAlreadyExists name))
    else
      match Table.new (strUpper name) columnDefs with
      | some t => ({ tables := db.tables ++ [t] }, .ok Option.none)
      | Option.none => (db, .crash)
  | .truncate name =>
    match mapFirstTable name (fun t => (t.truncate, ())) db.tables with
    | some (ts, _) => ({ tables := ts }, .ok Option.none)
    | Option.none => (db, .err (.tableNotFound name))
  | .select s =>
    let table := s.fromTable.bind
      (fun name => db.tables.find? (fun t => strLower name == strLower t.name))
    match selectResult table s with
    | .ok cols => (db, .ok (some (View.new cols)))
    | .err e => (db, .err e)
    | .crash => (db, .crash)
  | .insert tableName columns sources =>
    match mapFirstTable tableName (fun t => t.insert columns sources) db.tables with
    | some (ts, Option.none) => ({ tables := ts }, .ok Option.none)
    | some (ts, some e) => ({ tables := ts }, .err e)
    | Option.none => (db, .err (.tableNotFound tableName))
  | .update tableName assignments selection =>
    match mapFirstTable tableName (updateTableStmt assignments selection) db.tables with
    | some (ts, .ok _) => ({ tables := ts }, .ok Option.none)
    | some (ts, .err e) => ({ tables := ts }, .err e)
    | some (_, .crash) => (db, .crash)
    | Option.none => (db, .err (.tableNotFound tableName))
  | .delete tableName selection =>
    match mapFirstTable tableName (deleteTableStmt selection) db.tables with
    | some (ts, .ok _) => ({ tables := ts }, .ok Option.none)
    | some (ts, .err e) => ({ tables := ts }, .err e)
    | some (_, .crash) => (db, .crash)
    | Option.none => (db, .err (.tableNotFound tableName))
  | .drop tableName =>
    ({ tables := db.tables.filter (fun t => !(strLower t.name == strLower tableName)) },
     .ok Option.none)

/-- Fold a statement sequence through `Database::execute`, always continuing
from the returned state (a superset of the really reachable states, since a
crashed process would stop). -/
def Database.runQueries (db : Database) : List Query → Database
  | [] => db
  | q :: qs => ((db.execute q).1).runQueries qs

/-! ### Table-level operation sequences (for the RowId-allocation claims) -/

/-- The four mutating core operations on one table. -/
inductive TableOp
  | insert (columns : List String) (data : List (List Literal))
  | update (assignments : List (String × Literal)) (selected : List RowId)
  | delete (selected : List RowId)
  | truncate

/-- Apply one operation, keeping the post-state also when the operation
reports an error (partial mutations survive, as in the source). -/
def Table.applyOp (t : Table) : TableOp → Table
  | .insert cols data => (t.insert cols data).1
  | .update a sel => (t.update a sel).1
  | .delete sel => t.delete sel
  | .truncate => t.truncate

/-- The row ids allocated by one operation (only inserts allocate). -/
def TableOp.assigned (t : Table) : TableOp → List RowId
  | .insert cols data => t.insertAssigned cols data
  | _ => []

/-- The per-step allocation history of an operation sequence. -/
def Table.runAssigned (t : Table) : List TableOp → List (List RowId)
  | [] => []
  | op :: ops => TableOp.assigned t op :: (t.applyOp op).runAssigned ops

/-! ### Concrete fixtures used by witnesses and counterexamples -/

/-- An `Int` primary-key column header fixture. -/
def hdrInt (nm : String) (pk : Bool) (last : Option RowId) : ColumnHeader :=
  { name := nm, hidden := false, datatype := .int, nullable := false,
    isPk := pk, lastRowId := last }

/-- Table with one `Int` column `a = {0 ↦ 1, 1 ↦ 2, 2 ↦ 5}` (the §8
broadcast scenario of the spec). -/
def tC5 : Table :=
  { name := "T"
    columns := [{ header := hdrInt "a" true (some 2), data := .int [(0, 1), (1, 2), (2, 5)] }]
    pkMap := [] }

/-- Table with one `Int` column `a = {0 ↦ 5}`. -/
def tC2 : Table :=
  { name := "T"
    columns := [{ header := hdrInt "a" true (some 0), data := .int [(0, 5)] }]
    pkMap := [] }

/-- Table with `Int` columns `a = {0 ↦ 1, 1 ↦ 2}` and `b = {1 ↦ 3}`:
`RowId` 1 is present in both, but at different positions. -/
def tAB : Table :=
  { name := "T"
    columns :=
      [ { header := hdrInt "a" true (some 1), data := .int [(0, 1), (1, 2)] },
        { header := hdrInt "b" false (some 1), data := .int [(1, 3)] } ]
    pkMap := [] }

/-- Table `t(id INT PRIMARY KEY, name VARCHAR)` holding rows
`(1, "a"), (2, "b")` at `RowId`s 0 and 1. -/
def tUpd : Table :=
  { name := "T"
    columns :=
      [ { header := hdrInt "id" true (some 1), data := .int [(0, 1), (1, 2)] },
        { header :=
            { name := "name", hidden := false, datatype := .str, nullable := true,
              isPk := false, lastRowId := some 1 }
          data := .str [(0, "a"), (1, "b")] } ]
    pkMap := [] }

/-- One-table database around `tUpd`. -/
def dbUpd : Database := { tables := [tUpd] }

/-- The statement `UPDATE t SET id = 9 WHERE id = 1`. -/
def updIdStmt : Query :=
  .update "t" [("id", .int 9)]
    (some (.binary .eq (.ident (.named "id")) (.literal (.int 1))))

/-- Per-column allocation watermark: the next row id this column alone
would force. -/
def colNext (c : Column) : Nat :=
  match c.header.lastRowId with
  | some m => m + 1
  | Option.none => 0

/-- Allocation watermark of a column list (equals `Table::next_row_id`). -/
def colsNext (cs : List Column) : Nat :=
  cs.foldr (fun c acc => Nat.max (colNext c) acc) 0

/-! ### Key-alignment lemmas for the binary-operator pipeline -/

theorem zipFilter_keys {a b c : Type} (f : a → b → c) :
    ∀ (l : OMap a) (r : OMap b),
      omapKeys (zipFilter f l r) = posMatch (omapKeys l) (omapKeys r)
  | [], _ => rfl
  | _ :: _, [] => rfl
  | (k, x) :: l, (k', y) :: r => by
    by_cases h : k = k' <;>
      simp [zipFilter, zipPairs, posMatch, omapKeys, h, List.filter_cons] <;>
      simpa [zipFilter, zipPairs, posMatch, omapKeys] using zipFilter_keys f l r

theorem posMatch_mem {a b : List Nat} {k : Nat} (h : k ∈ posMatch a b) :
    k ∈ a ∧ k ∈ b := by
  simp only [posMatch, List.mem_map, List.mem_filter] at h
  obtain ⟨⟨x, y⟩, ⟨hz, he⟩, hk⟩ := h
  have hxy := List.of_mem_zip hz
  have : x = y := by simpa using he
  subst this
  subst hk
  exact hxy

theorem posMatch_sublist : ∀ (a b : List Nat), (posMatch a b).Sublist a
  | [], _ => by simp [posMatch]
  | _ :: _, [] => by simp [posMatch]
  | x :: a, y :: b => by
    by_cases h : x = y
    · simpa [posMatch, h, List.filter_cons] using (posMatch_sublist a b).cons₂ x
    · simpa [posMatch, h, List.filter_cons] using (posMatch_sublist a b).cons x

theorem rightDataFor_nonlit {re : Expression} (h : ∀ lit, re ≠ .literal lit)
    (a b : ColumnData) : Evaluator.rightDataFor re a b = .ok b := by
  cases re <;> first
    | rfl
    | exact absurd rfl (h _)

/-- Every successful binary-operator arm aligns rows positionally: the
result's keys are the keys standing at the same position in both operands'
ascending key lists. -/
theorem applyBinaryOp_keys {op : Binary} {re : Expression} {l r : OutColumn}
    {d : ColumnData} (hnl : ∀ lit, re ≠ Expression.literal lit)
    (h : Evaluator.applyBinaryOp op re l r = .ok d) :
    d.keys = posMatch l.data.keys r.data.keys := by
  obtain ⟨ln, ld⟩ := l
  obtain ⟨rn, rd⟩ := r
  cases op <;> cases ld <;> cases rd <;>
    simp only [Evaluator.applyBinaryOp, rightDataFor_nonlit hnl] at h <;>
    (try split at h) <;>
    first
      | exact Res.noConfusion h
      | (injection h with h; subst h; simp [ColumnData.keys, zipFilter_keys])

/-- **C1** (corrected): for a successful binary operation on two one-column
operands (with a non-literal right side, so no broadcast happens), the
result's `RowId` keys are the keys occupying the *same position* in both
operands' ascending key lists — a sublist of the left keys (hence ascending)
contained in the intersection, but *not* the full intersection: a `RowId`
present in both operands at different positions is dropped. -/
theorem c1_positional_alignment
    (tbl : Option Table) (op : Binary) (le re : Expression)
    (cl cr out : OutColumn)
    (hl : Evaluator.eval tbl le = .ok [cl])
    (hr : Evaluator.eval tbl re = .ok [cr])
    (hnl : ∀ lit, re ≠ Expression.literal lit)
    (hout : Evaluator.eval tbl (.binary op le re) = .ok [out]) :
    out.data.keys = posMatch cl.data.keys cr.data.keys
    ∧ (∀ k ∈ out.data.keys, k ∈ cl.data.keys ∧ k ∈ cr.data.keys)
    ∧ out.data.keys.Sublist cl.data.keys := by
  simp only [Evaluator.eval, hl, hr] at hout
  cases hab : Evaluator.applyBinaryOp op re cl cr with
  | ok d =>
    rw [hab] at hout
    injection hout with hout
    have hd : ({ name := cl.name, data := d } : OutColumn) = out := by
      simpa using hout
    have hkeys : out.data.keys = posMatch cl.data.keys cr.data.keys := by
      rw [← hd]
      exact applyBinaryOp_keys hnl hab
    refine ⟨hkeys, ?_, ?_⟩
    · intro k hk
      rw [hkeys] at hk
      exact posMatch_mem hk
    · rw [hkeys]
      exact posMatch_sublist _ _
  | err e => rw [hab] at hout; exact Res.noConfusion hout
  | crash => rw [hab] at hout; exact Res.noConfusion hout

/-- **C1** witness: the positional-alignment theorem applied to the table
`tAB` with `a = {0 ↦ 1, 1 ↦ 2}` and `b = {1 ↦ 3}` under `a + b`. -/
theorem c1_positional_alignment_witness :
    ColumnData.keys (.int []) = posMatch (ColumnData.keys (.int [(0, 1), (1, 2)]))
      (ColumnData.keys (.int [(1, 3)]))
    ∧ (∀ k ∈ ColumnData.keys (.int []),
        k ∈ ColumnData.keys (.int [(0, 1), (1, 2)]) ∧ k ∈ ColumnData.keys (.int [(1, 3)]))
    ∧ (ColumnData.keys (.int [])).Sublist (ColumnData.keys (.int [(0, 1), (1, 2)])) := by
  exact c1_positional_alignment (some tAB) .plus (.ident (.named "a")) (.ident (.named "b"))
    { name := "a", data := .int [(0, 1), (1, 2)] }
    { name := "b", data := .int [(1, 3)] }
    { name := "a", data := .int [] }
    (by decide) (by decide)
    (fun lit h => Expression.noConfusion h)
    (by decide)

/-- **C1** counterexample: on `tAB`, `RowId` 1 lies in the key sets of both
operands of `a + b`, yet the result is empty — the output key set is not the
intersection of the operands' key sets. -/
theorem c1_intersection_counterexample :
    Evaluator.eval (some tAB) (.binary .plus (.ident (.named "a")) (.ident (.named "b")))
      = .ok [{ name := "a", data := .int [] }]
    ∧ (1 : Nat) ∈ ColumnData.keys (.int [(0, 1), (1, 2)])
    ∧ (1 : Nat) ∈ ColumnData.keys (.int [(1, 3)]) := by decide

/-- **C2** (code bug): on the table `tC2` with `a = {0 ↦ 5}`, the `GtEq`
comparison against the literal `3` yields `false` at `RowId` 0 even though
`5 ≥ 3`: the `GtEq` arm of `Evaluator::eval` computes `lv <= rv`
(a copy of the `LtEq` arm) instead of `lv >= rv`. -/
theorem c2_gteq_computes_le :
    Evaluator.eval (some tC2) (.binary .gtEq (.ident (.named "a")) (.literal (.int 3)))
      = .ok [{ name := "a", data := .bool [(0, false)] }]
    ∧ (3 : Int) ≤ 5 := by decide

/-- **C8** (code bug): `Unary::Not` applied to an identifier naming a column
absent from the bound table aborts the process (`col_from_name(..).unwrap()`
panics) instead of returning a typed error. -/
theorem c8_not_missing_column_crashes :
    Evaluator.eval (some tC2) (.unary .not (.ident (.named "missing"))) = .crash
    ∧ tC2.colFromName "missing" = Option.none := by decide

/-- **C6** counterexample: `UPDATE t SET id = 9 WHERE id = 1` on a table
whose primary key is `id` fails with `Error::Unsupported`, not with
`Error::InvalidOperation` as the claim states. -/
theorem c6_unsupported_counterexample :
    (dbUpd.execute updIdStmt).2 = .err (.unsupported "updating the primary is not allowed")
    ∧ Res.isErrInvalidOperation (dbUpd.execute updIdStmt).2 = false := by decide

theorem mem_le_foldrMax {l : List Nat} {k : Nat} (h : k ∈ l) :
    k ≤ l.foldr Nat.max 0 := by
  induction l with
  | nil => cases h
  | cons a l ih =>
    rcases List.mem_cons.mp h with rfl | h'
    · exact Nat.le_max_left _ _
    · exact le_trans (ih h') (Nat.le_max_right _ _)

theorem foldrMax_mem : ∀ {l : List Nat}, l ≠ [] → l.foldr Nat.max 0 ∈ l
  | [a], _ => by simp
  | a :: b :: l, _ => by
    have ih := foldrMax_mem (l := b :: l) (by simp)
    have hfold : (a :: b :: l).foldr Nat.max 0 = Nat.max a ((b :: l).foldr Nat.max 0) := rfl
    by_cases hle : a ≤ (b :: l).foldr Nat.max 0
    · have hm : Nat.max a ((b :: l).foldr Nat.max 0) = (b :: l).foldr Nat.max 0 :=
        Nat.max_eq_right hle
      rw [hfold, hm]
      exact List.mem_cons_of_mem _ ih
    · have hm : Nat.max a ((b :: l).foldr Nat.max 0) = a :=
        Nat.max_eq_left (Nat.le_of_lt (Nat.lt_of_not_le hle))
      rw [hfold, hm]
      exact List.mem_cons_self _ _

theorem omapKeys_map_pair {α : Type} (x : α) :
    ∀ l : List Nat, omapKeys (l.map (fun i => (i, x))) = l
  | [] => rfl
  | i :: l => congrArg (List.cons i) (omapKeys_map_pair x l)

theorem fill_keys {α : Type} (x : α) (till : Nat) :
    omapKeys ((List.range (till + 1)).map (fun i => (i, x))) = List.range (till + 1) :=
  omapKeys_map_pair x _

/-- Every successful comparison arm produces a `Bool`-variant column. -/
theorem applyBinaryOp_comparison_bool {op : Binary} {re : Expression}
    {l r : OutColumn} {d : ColumnData} (hop : op.isComparison = true)
    (h : Evaluator.applyBinaryOp op re l r = .ok d) : ∃ bm, d = .bool bm := by
  obtain ⟨ln, ld⟩ := l
  obtain ⟨rn, rd⟩ := r
  cases op <;>
    (try simp only [Binary.isComparison, Bool.false_eq_true] at hop) <;>
    (simp only [Evaluator.applyBinaryOp] at h
     cases hrd : Evaluator.rightDataFor re ld rd with
     | ok rd' =>
       simp only [hrd] at h
       cases ld <;> cases rd' <;>
         first
           | exact Res.noConfusion h
           | (injection h with h; exact ⟨_, h.symm⟩)
     | err e => simp only [hrd] at h; exact Res.noConfusion h
     | crash => simp only [hrd] at h; exact Res.noConfusion h)

/-- **C5** (confirmed): a binary comparison against a bare right literal
broadcasts the literal into a column populated at every `RowId` from 0
through the left column's maximum stored key (`ColumnData::len`) inclusive;
a successful comparison of a named column always yields a `Bool`-typed
column carrying the left column's display name; and the §8 scenario holds:
`{0 ↦ 1, 1 ↦ 2, 2 ↦ 5} > 1` gives `{0 ↦ false, 1 ↦ true, 2 ↦ true}`. -/
theorem c5_literal_broadcast :
    (∀ (x : Int) (till k : Nat),
       ColumnData.fillWithLiteral (.int x) till
           = .ok (.int ((List.range (till + 1)).map (fun i => (i, x))))
       ∧ (k ∈ omapKeys ((List.range (till + 1)).map (fun i => (i, x))) ↔ k ≤ till)
       ∧ (∀ p ∈ (List.range (till + 1)).map (fun i => (i, x)), p.2 = x))
    ∧ (∀ (op : Binary), op.isComparison = true →
        ∀ (t : Table) (n : String) (c : Column) (lit : Literal) (out : OutColumn),
          t.colFromName n = some c →
          Evaluator.eval (some t) (.binary op (.ident (.named n)) (.literal lit)) = .ok [out] →
          out.name = c.header.name ∧ ∃ bm, out.data = .bool bm)
    ∧ (∀ (cd : ColumnData), ∀ k ∈ cd.keys, k ≤ cd.len)
    ∧ (∀ cd : ColumnData, cd.isEmpty = false → cd.len ∈ cd.keys)
    ∧ Evaluator.eval (some tC5) (.binary .gt (.ident (.named "a")) (.literal (.int 1)))
        = .ok [{ name := "a", data := .bool [(0, false), (1, true), (2, true)] }] := by
  refine ⟨?_, ?_, ?_, ?_, by decide⟩
  · intro x till k
    refine ⟨rfl, ?_, ?_⟩
    · rw [fill_keys]
      simp [List.mem_range, Nat.lt_succ_iff]
    · intro p hp
      simp only [List.mem_map] at hp
      obtain ⟨i, _, rfl⟩ := hp
      rfl
  · intro op hop t n c lit out hcol hout
    cases lit with
    | null => simp [Evaluator.eval, Evaluator.evalIdent, hcol] at hout
    | int v =>
      simp only [Evaluator.eval, Evaluator.evalIdent, hcol, litIntoOut] at hout
      cases hab : Evaluator.applyBinaryOp op (.literal (.int v)) (colToOut c)
          { name := "?column?", data := .int [(0, v)] } with
      | ok d =>
        simp only [hab] at hout
        injection hout with hout
        obtain ⟨bm, rfl⟩ := applyBinaryOp_comparison_bool hop hab
        have hd : ({ name := (colToOut c).name, data := .bool bm } : OutColumn) = out := by
          simpa using hout
        exact ⟨by rw [← hd]; simp [colToOut], bm, by rw [← hd]⟩
      | err e => simp only [hab] at hout; exact Res.noConfusion hout
      | crash => simp only [hab] at hout; exact Res.noConfusion hout
    | str v =>
      simp only [Evaluator.eval, Evaluator.evalIdent, hcol, litIntoOut] at hout
      cases hab : Evaluator.applyBinaryOp op (.literal (.str v)) (colToOut c)
          { name := "?column?", data := .str [(0, v)] } with
      | ok d =>
        simp only [hab] at hout
        injection hout with hout
        obtain ⟨bm, rfl⟩ := applyBinaryOp_comparison_bool hop hab
        have hd : ({ name := (colToOut c).name, data := .bool bm } : OutColumn) = out := by
          simpa using hout
        exact ⟨by rw [← hd]; simp [colToOut], bm, by rw [← hd]⟩
      | err e => simp only [hab] at hout; exact Res.noConfusion hout
      | crash => simp only [hab] at hout; exact Res.noConfusion hout
    | bool v =>
      simp only [Evaluator.eval, Evaluator.evalIdent, hcol, litIntoOut] at hout
      cases hab : Evaluator.applyBinaryOp op (.literal (.bool v)) (colToOut c)
          { name := "?column?", data := .bool [(0, v)] } with
      | ok d =>
        simp only [hab] at hout
        injection hout with hout
        obtain ⟨bm, rfl⟩ := applyBinaryOp_comparison_bool hop hab
        have hd : ({ name := (colToOut c).name, data := .bool bm } : OutColumn) = out := by
          simpa using hout
        exact ⟨by rw [← hd]; simp [colToOut], bm, by rw [← hd]⟩
      | err e => simp only [hab] at hout; exact Res.noConfusion hout
      | crash => simp only [hab] at hout; exact Res.noConfusion hout
  · intro cd k hk
    cases cd <;> exact mem_le_foldrMax hk
  · intro cd hne
    cases cd <;>
      · rename_i m
        cases m with
        | nil => simp [ColumnData.isEmpty] at hne
        | cons p m => exact foldrMax_mem (by simp [ColumnData.keys, omapKeys])

/-- **C5** witness: the broadcast and comparison facts at the §8 scenario
(`fill_with_literal 1` up to key 2, and column `a` of `tC5` compared with
`> 1`). -/
theorem c5_literal_broadcast_witness :
    ColumnData.fillWithLiteral (.int 1) 2
        = .ok (.int ((List.range 3).map (fun i => (i, (1 : Int)))))
    ∧ ({ name := "a", data := ColumnData.bool [(0, false), (1, true), (2, true)] } :
          OutColumn).name = (hdrInt "a" true (some 2)).name
    ∧ ∃ bm, ({ name := "a", data := ColumnData.bool [(0, false), (1, true), (2, true)] } :
          OutColumn).data = ColumnData.bool bm := by
  refine ⟨(c5_literal_broadcast.1 1 2 0).1, ?_, ?_⟩
  · exact (c5_literal_broadcast.2.1 .gt rfl tC5 "a"
      { header := hdrInt "a" true (some 2), data := .int [(0, 1), (1, 2), (2, 5)] }
      (.int 1) { name := "a", data := .bool [(0, false), (1, true), (2, true)] }
      (by decide) (by decide)).1
  · exact (c5_literal_broadcast.2.1 .gt rfl tC5 "a"
      { header := hdrInt "a" true (some 2), data := .int [(0, 1), (1, 2), (2, 5)] }
      (.int 1) { name := "a", data := .bool [(0, false), (1, true), (2, true)] }
      (by decide) (by decide)).2

/-! ### The Select cross-product -/

theorem crossOne_ok {p : OutColumn} {selected : List OutColumn}
    (hbool : ∀ c ∈ selected, c.data.isBool = true) :
    crossOne p selected
      = .ok (selected.map (fun sc =>
          { name := p.name, data := p.data.retainKeys sc.data.trueKeysD })) := by
  induction selected with
  | nil => rfl
  | cons s ss ih =>
    have hs := hbool s (List.mem_cons_self _ _)
    cases hsd : s.data with
    | bool m =>
      simp [crossOne, hsd, ih (fun c hc => hbool c (List.mem_cons_of_mem _ hc)),
        ColumnData.trueKeysD]
    | int m => rw [hsd] at hs; exact absurd hs (by simp [ColumnData.isBool])
    | str m => rw [hsd] at hs; exact absurd hs (by simp [ColumnData.isBool])

theorem crossAll_ok {selected : List OutColumn} (projected : List OutColumn)
    (hbool : ∀ c ∈ selected, c.data.isBool = true) :
    crossAll selected projected
      = .ok (projected.flatMap (fun p => selected.map (fun sc =>
          { name := p.name, data := p.data.retainKeys sc.data.trueKeysD }))) := by
  induction projected with
  | nil => rfl
  | cons p ps ih => simp [crossAll, crossOne_ok hbool, ih]

theorem omap_retain_keys_mem {α : Type} (m : OMap α) (ks : List RowId) (k : RowId) :
    k ∈ omapKeys (m.filter (fun p => ks.contains p.1)) ↔ k ∈ omapKeys m ∧ k ∈ ks := by
  simp only [omapKeys, List.mem_map, List.mem_filter]
  constructor
  · rintro ⟨⟨k', v⟩, ⟨hm, hc⟩, rfl⟩
    exact ⟨⟨(k', v), hm, rfl⟩, by simpa using hc⟩
  · rintro ⟨⟨⟨k', v⟩, hm, rfl⟩, hk⟩
    exact ⟨(k', v), ⟨hm, by simpa using hk⟩, rfl⟩

theorem trueKeysOf_mem (m : OMap Bool) (k : RowId) :
    k ∈ ColumnData.trueKeysOf m ↔ (k, true) ∈ m := by
  simp only [ColumnData.trueKeysOf, List.mem_map, List.mem_filter]
  constructor
  · rintro ⟨⟨k', v⟩, ⟨hm, hv⟩, rfl⟩
    have hv' : v = true := by simpa using hv
    subst hv'
    exact hm
  · intro hm
    exact ⟨(k, true), ⟨hm, rfl⟩, rfl⟩

/-- **C3** (confirmed): a Select with no resulting selection columns returns
the projected columns unfiltered; otherwise the output is the cross-product
over all (projected, selected) pairs, each entry a copy of the projected
column that retains exactly the `RowId`s stored in it at which the selected
column holds `true`. -/
theorem c3_select_cross_product
    (db : Database) (s : Select) (tbl : Option Table) (selCols projCols : List OutColumn)
    (htbl : tbl = s.fromTable.bind
        (fun name => db.tables.find? (fun t => strLower name == strLower t.name)))
    (hsel : evalSelections tbl s.selection = .ok selCols)
    (hproj : evalExprs tbl s.projection = .ok projCols)
    (hbool : ∀ c ∈ selCols, c.data.isBool = true) :
    db.execute (.select s)
      = (db, .ok (some (View.new
          (if selCols.isEmpty then projCols
           else projCols.flatMap (fun p => selCols.map (fun sc =>
             { name := p.name, data := p.data.retainKeys sc.data.trueKeysD }))))))
    ∧ (∀ (d : ColumnData) (ks : List RowId) (k : RowId),
         k ∈ (d.retainKeys ks).keys ↔ k ∈ d.keys ∧ k ∈ ks)
    ∧ (∀ (m : OMap Bool) (k : RowId),
         k ∈ ColumnData.trueKeysOf m ↔ (k, true) ∈ m) := by
  refine ⟨?_, ?_, trueKeysOf_mem⟩
  · simp only [Database.execute, ← htbl, selectResult, hsel, hproj]
    by_cases he : selCols.isEmpty <;>
      simp [he, crossAll_ok projCols hbool]
  · intro d ks k
    cases d <;> exact omap_retain_keys_mem _ ks k

/-- **C3** witness: the cross-product theorem applied to `dbUpd` with a
wildcard projection and the sentinel-only selection (no selection columns:
everything is returned unfiltered). -/
theorem c3_select_cross_product_witness :
    dbUpd.execute (.select
        { fromTable := some "t", projection := [.ident .wildcard], selection := [.none] })
      = (dbUpd, .ok (some (View.new
          (if ([] : List OutColumn).isEmpty then
            [{ name := "id", data := ColumnData.int [(0, 1), (1, 2)] },
             { name := "name", data := ColumnData.str [(0, "a"), (1, "b")] }]
           else ([{ name := "id", data := ColumnData.int [(0, 1), (1, 2)] },
                  { name := "name", data := ColumnData.str [(0, "a"), (1, "b")] }] :
                    List OutColumn).flatMap
             (fun p => ([] : List OutColumn).map (fun sc =>
               { name := p.name, data := p.data.retainKeys sc.data.trueKeysD }))))))
    ∧ (∀ (d : ColumnData) (ks : List RowId) (k : RowId),
         k ∈ (d.retainKeys ks).keys ↔ k ∈ d.keys ∧ k ∈ ks)
    ∧ (∀ (m : OMap Bool) (k : RowId),
         k ∈ ColumnData.trueKeysOf m ↔ (k, true) ∈ m) :=
  c3_select_cross_product dbUpd
    { fromTable := some "t", projection := [.ident .wildcard], selection := [.none] }
    (some tUpd) []
    [{ name := "id", data := ColumnData.int [(0, 1), (1, 2)] },
     { name := "name", data := ColumnData.str [(0, "a"), (1, "b")] }]
    (by decide) (by decide) (by decide) (by intro c hc; cases hc)

/-! ### Primary-key update rejection -/

theorem litMatches_update {cd : ColumnData} {lit : Literal} (h : litMatches cd lit = true)
    (r : RowId) : ∃ cd', cd.update r lit = .ok cd' ∧ litMatches cd' lit = true := by
  cases cd <;> cases lit <;>
    first
      | exact ⟨_, rfl, rfl⟩
      | simp [litMatches] at h

theorem updateRows_none {lit : Literal} :
    ∀ (rs : List RowId) {cd : ColumnData}, litMatches cd lit = true →
      (updateRows lit cd rs).2 = Option.none
  | [], _, _ => rfl
  | r :: rs, cd, h => by
    obtain ⟨cd', hup, hm⟩ := litMatches_update h r
    simp [updateRows, hup, updateRows_none rs hm]

theorem updateCols_pk_fails (assigns : List (String × Literal)) (selected : List RowId) :
    ∀ cs : List Column,
      (∃ c ∈ cs, c.header.isPk = true
        ∧ (lookupAssign assigns (strLower c.header.name)).isSome = true) →
      ((updateCols assigns selected cs).2).isSome = true
  | [], h => by simp at h
  | c :: cs, h => by
    obtain ⟨c', hc', hpk, hsome⟩ := h
    cases hla : lookupAssign assigns (strLower c.header.name) with
    | none =>
      have hc'' : c' ∈ cs := by
        rcases List.mem_cons.mp hc' with rfl | h'
        · rw [hla] at hsome
          exact absurd hsome (by simp)
        · exact h'
      have ih := updateCols_pk_fails assigns selected cs ⟨c', hc'', hpk, hsome⟩
      simp only [updateCols, hla]
      cases hrec : updateCols assigns selected cs with
      | mk cs' e => rw [hrec] at ih; simpa using ih
    | some v =>
      by_cases hp : c.header.isPk = true
      · simp [updateCols, hla, hp]
      · have hc'' : c' ∈ cs := by
          rcases List.mem_cons.mp hc' with rfl | h'
          · exact absurd hpk hp
          · exact h'
        simp only [updateCols, hla, hp]
        simp only [Bool.false_eq_true, if_false]
        cases hur : updateRows v c.data selected with
        | mk d' e' =>
          cases e' with
          | none =>
            have ih := updateCols_pk_fails assigns selected cs ⟨c', hc'', hpk, hsome⟩
            cases hrec : updateCols assigns selected cs with
            | mk cs' e => rw [hrec] at ih; simpa using ih
          | some e'' => simp

theorem updateCols_pk_unsupported (assigns : List (String × Literal)) (selected : List RowId) :
    ∀ cs : List Column,
      (∃ c ∈ cs, c.header.isPk = true
        ∧ (lookupAssign assigns (strLower c.header.name)).isSome = true) →
      (∀ c ∈ cs, c.header.isPk = false →
        ∀ v, lookupAssign assigns (strLower c.header.name) = some v →
          litMatches c.data v = true) →
      (updateCols assigns selected cs).2
        = some (.unsupported "updating the primary is not allowed")
  | [], h, _ => by simp at h
  | c :: cs, h, htyped => by
    obtain ⟨c', hc', hpk, hsome⟩ := h
    cases hla : lookupAssign assigns (strLower c.header.name) with
    | none =>
      have hc'' : c' ∈ cs := by
        rcases List.mem_cons.mp hc' with rfl | h'
        · rw [hla] at hsome
          exact absurd hsome (by simp)
        · exact h'
      have ih := updateCols_pk_unsupported assigns selected cs ⟨c', hc'', hpk, hsome⟩
        (fun d hd => htyped d (List.mem_cons_of_mem _ hd))
      simp only [updateCols, hla]
      cases hrec : updateCols assigns selected cs with
      | mk cs' e => rw [hrec] at ih; simpa using ih
    | some v =>
      by_cases hp : c.header.isPk = true
      · simp [updateCols, hla, hp]
      · have hc'' : c' ∈ cs := by
          rcases List.mem_cons.mp hc' with rfl | h'
          · exact absurd hpk hp
          · exact h'
        have hm : litMatches c.data v = true :=
          htyped c (List.mem_cons_self _ _) (by simpa using hp) v hla
        have hok := updateRows_none selected hm
        simp only [updateCols, hla, hp]
        simp only [Bool.false_eq_true, if_false]
        cases hur : updateRows v c.data selected with
        | mk d' e' =>
          rw [hur] at hok
          simp only at hok
          subst hok
          have ih := updateCols_pk_unsupported assigns selected cs ⟨c', hc'', hpk, hsome⟩
            (fun d hd => htyped d (List.mem_cons_of_mem _ hd))
          cases hrec : updateCols assigns selected cs with
          | mk cs' e => rw [hrec] at ih; simpa using ih

/-- **C6** (corrected): an Update whose assignment map contains an entry for
a primary-key column of the target table (keyed, as the source looks it up,
by the lowercased column name) always fails — and when every other assigned
column's literal matches its column's variant, the error is
`Error::Unsupported` (not `InvalidOperation` as the claim states). -/
theorem c6_pk_update_fails (t : Table) (assigns : List (String × Literal))
    (sel : List RowId)
    (hpk : ∃ c ∈ t.columns, c.header.isPk = true
      ∧ (lookupAssign assigns (strLower c.header.name)).isSome = true) :
    ((t.update assigns sel).2).isSome = true
    ∧ ((∀ c ∈ t.columns, c.header.isPk = false →
          ∀ v, lookupAssign assigns (strLower c.header.name) = some v →
            litMatches c.data v = true) →
        (t.update assigns sel).2
          = some (.unsupported "updating the primary is not allowed")) := by
  have h2 : (t.update assigns sel).2 = (updateCols assigns sel t.columns).2 := by
    simp only [Table.update]
  constructor
  · rw [h2]
    exact updateCols_pk_fails assigns sel t.columns hpk
  · intro htyped
    rw [h2]
    exact updateCols_pk_unsupported assigns sel t.columns hpk htyped

/-- **C6** witness: the amended statement applied to the fixture table
`tUpd` with the assignment `id := 9`. -/
theorem c6_pk_update_fails_witness :
    ((tUpd.update [("id", .int 9)] [0]).2).isSome = true
    ∧ (tUpd.update [("id", .int 9)] [0]).2
        = some (.unsupported "updating the primary is not allowed") := by
  have h := c6_pk_update_fails tUpd [("id", .int 9)] [0] (by decide)
  exact ⟨h.1, h.2 (by decide)⟩

/-! ### CreateTable requires a primary key -/

/-- **C7** (confirmed): when no column definition ends up marked primary
key, `Table::new` never produces a table (the source panics); conversely
every constructed table has a primary-key column, and `Database::execute`
on CreateTable only ever adds tables with a primary-key column. -/
theorem c7_create_requires_pk (name : String) (defs : List ColumnDef)
    (hnopk : ∀ d ∈ defs, (applyColOptions d.options).1 = false) :
    Table.new name defs = Option.none
    ∧ (∀ (nm : String) (ds : List ColumnDef) (t : Table),
        Table.new nm ds = some t → ∃ c ∈ t.columns, c.header.isPk = true)
    ∧ (∀ (db : Database) (nm : String) (ds : List ColumnDef) (t : Table),
        t ∈ (db.execute (.createTable nm ds)).1.tables →
        t ∈ db.tables ∨ ∃ c ∈ t.columns, c.header.isPk = true) := by
  have hsome : ∀ (nm : String) (ds : List ColumnDef) (t : Table),
      Table.new nm ds = some t → ∃ c ∈ t.columns, c.header.isPk = true := by
    intro nm ds t h
    simp only [Table.new] at h
    split at h
    · rename_i hany
      injection h with h
      subst h
      simpa using List.any_eq_true.mp hany
    · exact Option.noConfusion h
  refine ⟨?_, hsome, ?_⟩
  · simp only [Table.new]
    rw [if_neg]
    intro hany
    obtain ⟨c, hc, hpk⟩ := List.any_eq_true.mp hany
    obtain ⟨d, hd, rfl⟩ := List.mem_map.mp hc
    have hno := hnopk d hd
    have : (buildColumn d).header.isPk = (applyColOptions d.options).1 := rfl
    rw [this, hno] at hpk
    exact Bool.noConfusion hpk
  · intro db nm ds t ht
    simp only [Database.execute] at ht
    split at ht
    · exact Or.inl ht
    · cases hnew : Table.new (strUpper nm) ds with
      | some t' =>
        rw [hnew] at ht
        simp only at ht
        rcases List.mem_append.mp ht with h | h
        · exact Or.inl h
        · have : t = t' := by simpa using h
          subst this
          exact Or.inr (hsome _ _ _ hnew)
      | none =>
        rw [hnew] at ht
        exact Or.inl ht

/-- **C7** witness: a definition list with no primary-key mark never builds
a table. -/
theorem c7_create_requires_pk_witness :
    Table.new "T" [{ name := "id", dataType := .int, options := [.notNull] }]
      = Option.none :=
  (c7_create_requires_pk "T" [{ name := "id", dataType := .int, options := [.notNull] }]
    (by decide)).1

/-! ### RowId allocation -/

theorem colsNext_cons (c : Column) (cs : List Column) :
    colsNext (c :: cs) = Nat.max (colNext c) (colsNext cs) := rfl

theorem optNext_optMax (o r : Option RowId) :
    optNext (optMax o r) = Nat.max (optNext o) (optNext r) := by
  cases o <;> cases r <;> simp [optMax, optNext, Nat.succ_max_succ]

theorem nextRowId_eq_colsNext (t : Table) : t.nextRowId = colsNext t.columns := by
  obtain ⟨nm, cs, pk⟩ := t
  show optNext ((cs.map (fun c => c.header.lastRowId)).foldr optMax Option.none)
      = colsNext cs
  induction cs with
  | nil => rfl
  | cons c cs ih =>
    rw [List.map_cons, List.foldr_cons, optNext_optMax, ih]
    rfl

theorem insertLit_name (c : Column) (rid : RowId) (v : Literal) :
    ((c.insertLit rid v).1).header.name = c.header.name := by
  cases hc : c.data <;> cases v <;> simp [Column.insertLit, hc]

theorem insertLit_lastRowId (c : Column) (rid : RowId) (v : Literal) :
    ((c.insertLit rid v).1).header.lastRowId = some rid := by
  cases hc : c.data <;> cases v <;> simp [Column.insertLit, hc]

theorem insertLit_colNext (c : Column) (rid : RowId) (v : Literal) :
    colNext ((c.insertLit rid v).1) = rid + 1 := by
  simp [colNext, insertLit_lastRowId]

theorem insertRow_spec (keep : String → Bool) (rid : RowId) :
    ∀ (cols : List Column) (datum : List Literal),
      (insertRow cols keep rid datum).1.map (fun c => c.header.name)
          = cols.map (fun c => c.header.name)
      ∧ ((insertRow cols keep rid datum).2.1 = false →
          (insertRow cols keep rid datum).1 = cols)
      ∧ (colsNext cols ≤ rid →
          colsNext cols ≤ colsNext (insertRow cols keep rid datum).1
          ∧ colsNext (insertRow cols keep rid datum).1 ≤ rid + 1
          ∧ ((insertRow cols keep rid datum).2.1 = true →
              rid + 1 ≤ colsNext (insertRow cols keep rid datum).1))
  | [], datum => by
    exact ⟨rfl, fun _ => rfl,
      fun h => ⟨le_refl _, Nat.zero_le _, fun ht => Bool.noConfusion ht⟩⟩
  | c :: cs, datum => by
    cases hk : keep c.header.name with
    | false =>
      have ih := insertRow_spec keep rid cs datum
      simp only [insertRow, hk, Bool.false_eq_true, if_false]
      cases hrec : insertRow cs keep rid datum with
      | mk cs' rest =>
        obtain ⟨tch, e⟩ := rest
        rw [hrec] at ih
        simp only at ih ⊢
        obtain ⟨hnames, huntouched, hbounds⟩ := ih
        refine ⟨by simp [hnames], ?_, ?_⟩
        · intro hf
          rw [huntouched hf]
        · intro hle
          rw [colsNext_cons] at hle
          obtain ⟨h1, h2⟩ := Nat.max_le.mp hle
          obtain ⟨m1, m2, m3⟩ := hbounds h2
          refine ⟨?_, ?_, ?_⟩
          · rw [colsNext_cons, colsNext_cons]
            exact Nat.max_le.mpr
              ⟨Nat.le_max_left _ _, le_trans m1 (Nat.le_max_right _ _)⟩
          · rw [colsNext_cons]
            exact Nat.max_le.mpr ⟨le_trans h1 (Nat.le_succ _), m2⟩
          · intro ht
            rw [colsNext_cons]
            exact le_trans (m3 ht) (Nat.le_max_right _ _)
    | true =>
      cases datum with
      | nil =>
        simp only [insertRow, hk, if_true]
        refine ⟨by trivial, fun _ => by trivial,
          fun hle => ⟨le_refl _, le_trans hle (Nat.le_succ _),
            fun ht => by simp_all⟩⟩
      | cons v vs =>
        cases hil : Column.insertLit c rid v with
        | mk c' eo =>
          have hcn : colNext c' = rid + 1 := by
            have h := insertLit_colNext c rid v
            rw [hil] at h
            exact h
          have hcname : c'.header.name = c.header.name := by
            have h := insertLit_name c rid v
            rw [hil] at h
            exact h
          cases eo with
          | none =>
            have ih := insertRow_spec keep rid cs vs
            simp only [insertRow, hk, if_true, hil]
            cases hrec : insertRow cs keep rid vs with
            | mk cs' rest =>
              obtain ⟨tch, e⟩ := rest
              rw [hrec] at ih
              simp only at ih ⊢
              obtain ⟨hnames, _, hbounds⟩ := ih
              refine ⟨by simp [hnames, hcname], fun hf => Bool.noConfusion hf, ?_⟩
              intro hle
              rw [colsNext_cons] at hle
              obtain ⟨h1, h2⟩ := Nat.max_le.mp hle
              obtain ⟨m1, m2, m3⟩ := hbounds h2
              refine ⟨?_, ?_, ?_⟩
              · rw [colsNext_cons, colsNext_cons, hcn]
                exact Nat.max_le.mpr
                  ⟨le_trans h1 (le_trans (Nat.le_succ _) (Nat.le_max_left _ _)),
                   le_trans m1 (Nat.le_max_right _ _)⟩
              · rw [colsNext_cons, hcn]
                exact Nat.max_le.mpr ⟨le_refl _, m2⟩
              · intro _
                rw [colsNext_cons, hcn]
                exact Nat.le_max_left _ _
          | some err =>
            simp only [insertRow, hk, if_true, hil]
            refine ⟨by simp [hcname], fun hf => Bool.noConfusion hf, ?_⟩
            intro hle
            rw [colsNext_cons] at hle
            obtain ⟨h1, h2⟩ := Nat.max_le.mp hle
            refine ⟨?_, ?_, ?_⟩
            · rw [colsNext_cons, colsNext_cons, hcn]
              exact Nat.max_le.mpr
                ⟨le_trans h1 (le_trans (Nat.le_succ _) (Nat.le_max_left _ _)),
                 Nat.le_max_right _ _⟩
            · rw [colsNext_cons, hcn]
              exact Nat.max_le.mpr ⟨le_refl _, le_trans h2 (Nat.le_succ _)⟩
            · intro _
              rw [colsNext_cons, hcn]
              exact Nat.le_max_left _ _

theorem insertRows_spec (keep : String → Bool) :
    ∀ (data : List (List Literal)) (cols : List Column) (rid : RowId),
      colsNext cols ≤ rid →
      (∀ a ∈ (insertRows keep cols rid data).2.1,
          rid ≤ a ∧ a + 1 ≤ colsNext (insertRows keep cols rid data).1)
      ∧ colsNext cols ≤ colsNext (insertRows keep cols rid data).1
      ∧ (insertRows keep cols rid data).1.map (fun c => c.header.name)
          = cols.map (fun c => c.header.name)
  | [], cols, rid, hle =>
    ⟨fun a ha => absurd ha (List.not_mem_nil a), le_refl _, rfl⟩
  | datum :: rest, cols, rid, hle => by
    have hrow := insertRow_spec keep rid cols datum
    cases hrowE : insertRow cols keep rid datum with
    | mk cols' r2 =>
      obtain ⟨tch, e⟩ := r2
      rw [hrowE] at hrow
      simp only at hrow
      obtain ⟨hnames, _, hbounds⟩ := hrow
      obtain ⟨hmono, hupper, htch⟩ := hbounds hle
      cases e with
      | none =>
        have ih := insertRows_spec keep rest cols' (rid + 1) hupper
        simp only [insertRows, hrowE]
        cases hrecE : insertRows keep cols' (rid + 1) rest with
        | mk cols'' r3 =>
          obtain ⟨ids, e'⟩ := r3
          rw [hrecE] at ih
          simp only at ih ⊢
          obtain ⟨ihids, ihmono, ihnames⟩ := ih
          refine ⟨?_, le_trans hmono ihmono, by rw [ihnames, hnames]⟩
          intro a ha
          rcases List.mem_append.mp ha with h | h
          · cases tch with
            | true =>
              have ha' : a = rid := by simpa using h
              subst ha'
              exact ⟨le_refl _, le_trans (htch rfl) ihmono⟩
            | false => simp at h
          · obtain ⟨g1, g2⟩ := ihids a h
            exact ⟨le_trans (Nat.le_succ _) g1, g2⟩
      | some err =>
        simp only [insertRows, hrowE]
        refine ⟨?_, hmono, hnames⟩
        intro a ha
        cases tch with
        | true =>
          have ha' : a = rid := by simpa using ha
          subst ha'
          exact ⟨le_refl _, htch rfl⟩
        | false => simp at ha

theorem insertRow_touched (keep : String → Bool) (rid : RowId) :
    ∀ (cols : List Column) (v : Literal) (vs : List Literal),
      (cols.map (fun c => c.header.name)).any keep = true →
      (insertRow cols keep rid (v :: vs)).2.1 = true
  | [], v, vs, h => by simp at h
  | c :: cs, v, vs, h => by
    cases hk : keep c.header.name with
    | true =>
      simp only [insertRow, hk, if_true]
      cases hil : Column.insertLit c rid v with
      | mk c' eo =>
        cases eo <;> simp
    | false =>
      have h' : (cs.map (fun c => c.header.name)).any keep = true := by
        simpa [hk] using h
      have ih := insertRow_touched keep rid cs v vs h'
      simp only [insertRow, hk, Bool.false_eq_true, if_false]
      cases hrec : insertRow cs keep rid (v :: vs) with
      | mk cs' r =>
        obtain ⟨t', e⟩ := r
        rw [hrec] at ih
        simpa using ih

theorem insertRows_range (keep : String → Bool) :
    ∀ (data : List (List Literal)) (cols : List Column) (rid : RowId),
      (cols.map (fun c => c.header.name)).any keep = true →
      (∀ d ∈ data, d ≠ []) →
      (insertRows keep cols rid data).2.2 = Option.none →
      (insertRows keep cols rid data).2.1 = List.range' rid data.length
  | [], _, _, _, _, _ => rfl
  | datum :: rest, cols, rid, hkeep, hne, hok => by
    obtain ⟨v, vs, rfl⟩ : ∃ v vs, datum = v :: vs := by
      cases datum with
      | nil => exact absurd rfl (hne [] (List.mem_cons_self _ _))
      | cons v vs => exact ⟨v, vs, rfl⟩
    have htch := insertRow_touched keep rid cols v vs hkeep
    have hnames := (insertRow_spec keep rid cols (v :: vs)).1
    cases hrowE : insertRow cols keep rid (v :: vs) with
    | mk cols' r2 =>
      obtain ⟨tch, e⟩ := r2
      rw [hrowE] at htch hnames
      simp only at htch hnames
      subst htch
      cases e with
      | some err =>
        simp only [insertRows, hrowE] at hok
        exact absurd hok (by simp)
      | none =>
        have hok' : (insertRows keep cols' (rid + 1) rest).2.2 = Option.none := by
          simp only [insertRows, hrowE] at hok
          cases hrecE : insertRows keep cols' (rid + 1) rest with
          | mk cols'' r3 =>
            obtain ⟨ids, e'⟩ := r3
            rw [hrecE] at hok
            simpa using hok
        have ih := insertRows_range keep rest cols' (rid + 1)
          (by rw [hnames]; exact hkeep)
          (fun d hd => hne d (List.mem_cons_of_mem _ hd)) hok'
        simp only [insertRows, hrowE]
        cases hrecE : insertRows keep cols' (rid + 1) rest with
        | mk cols'' r3 =>
          obtain ⟨ids, e'⟩ := r3
          rw [hrecE] at ih
          simp only at ih ⊢
          rw [ih]
          rfl

theorem updateCols_headers (a : List (String × Literal)) (sel : List RowId) :
    ∀ cs : List Column,
      ((updateCols a sel cs).1).map (fun c => c.header) = cs.map (fun c => c.header)
  | [] => rfl
  | c :: cs => by
    cases hla : lookupAssign a (strLower c.header.name) with
    | none =>
      have ih := updateCols_headers a sel cs
      simp only [updateCols, hla]
      cases hrec : updateCols a sel cs with
      | mk cs' e =>
        rw [hrec] at ih
        simpa using ih
    | some v =>
      cases hp : c.header.isPk with
      | true => simp [updateCols, hla, hp]
      | false =>
        have ih := updateCols_headers a sel cs
        simp only [updateCols, hla, hp, Bool.false_eq_true, if_false]
        cases hur : updateRows v c.data sel with
        | mk d' e' =>
          cases e' with
          | none =>
            cases hrec : updateCols a sel cs with
            | mk cs' e =>
              rw [hrec] at ih
              simpa using ih
          | some e'' => simp

theorem headers_colsNext_eq : ∀ {cs cs' : List Column},
    cs.map (fun c => c.header) = cs'.map (fun c => c.header) →
      colsNext cs = colsNext cs'
  | [], [], _ => rfl
  | [], _ :: _, h => by simp at h
  | _ :: _, [], h => by simp at h
  | c :: cs, c' :: cs', h => by
    simp only [List.map_cons, List.cons.injEq] at h
    obtain ⟨h1, h2⟩ := h
    rw [colsNext_cons, colsNext_cons, headers_colsNext_eq h2]
    simp [colNext, h1]

theorem truncate_headers (t : Table) :
    ((t.truncate).columns).map (fun c => c.header)
      = t.columns.map (fun c => c.header) := by
  simp [Table.truncate, List.map_map]

theorem delete_headers : ∀ (sel : List RowId) (t : Table),
    ((t.delete sel).columns).map (fun c => c.header)
      = t.columns.map (fun c => c.header)
  | [], t => rfl
  | r :: rs, t => by
    rw [Table.delete, delete_headers rs]
    simp [List.map_map]

theorem delete_pkMap_nil : ∀ (sel : List RowId) (t : Table),
    t.pkMap = [] → (t.delete sel).pkMap = []
  | [], t, h => h
  | r :: rs, t, h => by
    rw [Table.delete]
    exact delete_pkMap_nil rs _ (by simp [h])

theorem update_headers (t : Table) (a : List (String × Literal)) (sel : List RowId) :
    (((t.update a sel).1).columns).map (fun c => c.header)
      = t.columns.map (fun c => c.header) := by
  have h := updateCols_headers a sel t.columns
  simp only [Table.update]
  cases hrec : updateCols a sel t.columns with
  | mk cs' e =>
    rw [hrec] at h
    simpa using h

theorem nextRowId_update (t : Table) (a : List (String × Literal)) (sel : List RowId) :
    ((t.update a sel).1).nextRowId = t.nextRowId := by
  rw [nextRowId_eq_colsNext, nextRowId_eq_colsNext]
  exact headers_colsNext_eq (update_headers t a sel)

theorem nextRowId_delete (t : Table) (sel : List RowId) :
    (t.delete sel).nextRowId = t.nextRowId := by
  rw [nextRowId_eq_colsNext, nextRowId_eq_colsNext]
  exact headers_colsNext_eq (delete_headers sel t)

theorem nextRowId_truncate (t : Table) :
    (t.truncate).nextRowId = t.nextRowId := by
  rw [nextRowId_eq_colsNext, nextRowId_eq_colsNext]
  exact headers_colsNext_eq (truncate_headers t)

/-- Every id allocated by one operation lies between the pre-state's
watermark (inclusive) and the post-state's (exclusive); the watermark never
decreases. -/
theorem assigned_bounds (t : Table) (op : TableOp) :
    (∀ a ∈ TableOp.assigned t op, t.nextRowId ≤ a ∧ a < (t.applyOp op).nextRowId)
    ∧ t.nextRowId ≤ (t.applyOp op).nextRowId := by
  cases op with
  | insert cols data =>
    have hspec := insertRows_spec (fun n => (t.insertNames cols).contains n) data
      t.columns t.nextRowId (le_of_eq (nextRowId_eq_colsNext t).symm)
    cases hrec : insertRows (fun n => (t.insertNames cols).contains n)
        t.columns t.nextRowId data with
    | mk cols' r =>
      obtain ⟨ids, e⟩ := r
      rw [hrec] at hspec
      simp only at hspec
      obtain ⟨hids, hmono, _⟩ := hspec
      have h1 : (t.applyOp (.insert cols data)).nextRowId = colsNext cols' := by
        show ((t.insert cols data).1).nextRowId = colsNext cols'
        rw [nextRowId_eq_colsNext]
        simp only [Table.insert, hrec]
      have h2 : TableOp.assigned t (.insert cols data) = ids := by
        show t.insertAssigned cols data = ids
        simp only [Table.insertAssigned, hrec]
      constructor
      · intro a ha
        rw [h2] at ha
        obtain ⟨g1, g2⟩ := hids a ha
        exact ⟨g1, by rw [h1]; exact g2⟩
      · rw [h1]
        exact le_trans (le_of_eq (nextRowId_eq_colsNext t)) hmono
  | update a sel =>
    exact ⟨fun x hx => absurd hx (List.not_mem_nil x),
      le_of_eq (nextRowId_update t a sel).symm⟩
  | delete sel =>
    exact ⟨fun x hx => absurd hx (List.not_mem_nil x),
      le_of_eq (nextRowId_delete t sel).symm⟩
  | truncate =>
    exact ⟨fun x hx => absurd hx (List.not_mem_nil x),
      le_of_eq (nextRowId_truncate t).symm⟩

theorem runAssigned_lb : ∀ (ops : List TableOp) (t : Table),
    ∀ xs ∈ t.runAssigned ops, ∀ b ∈ xs, t.nextRowId ≤ b
  | [], _, xs, hxs => absurd hxs (List.not_mem_nil xs)
  | op :: ops, t, xs, hxs => by
    rcases List.mem_cons.mp hxs with rfl | h
    · exact fun b hb => ((assigned_bounds t op).1 b hb).1
    · exact fun b hb =>
        le_trans (assigned_bounds t op).2
          (runAssigned_lb ops (t.applyOp op) xs h b hb)

theorem runAssigned_pairwise : ∀ (ops : List TableOp) (t : Table),
    List.Pairwise (fun xs ys => ∀ a ∈ xs, ∀ b ∈ ys, a < b) (t.runAssigned ops)
  | [], _ => List.Pairwise.nil
  | op :: ops, t => by
    refine List.Pairwise.cons ?_ (runAssigned_pairwise ops (t.applyOp op))
    intro ys hys a ha b hb
    exact lt_of_lt_of_le ((assigned_bounds t op).1 a ha).2
      (runAssigned_lb ops (t.applyOp op) ys hys b hb)

/-- **C4** (confirmed): across any sequence of the core table operations,
ids allocated by a later operation are strictly greater than ids allocated
by an earlier one (no `RowId` is ever reused); a successful insert on a
table with watermark `m` (and at least one targeted column and non-empty
rows) assigns exactly the consecutive ids `m+1, …, m+#rows`; delete,
update and truncate leave the allocation watermark untouched. -/
theorem c4_rowid_allocation (t0 : Table) (ops : List TableOp) :
    List.Pairwise (fun xs ys => ∀ a ∈ xs, ∀ b ∈ ys, a < b) (t0.runAssigned ops)
    ∧ (∀ (t : Table) (cols : List String) (data : List (List Literal)) (m : Nat),
        t.lastRowId = some m →
        (t.columns.map (fun c => c.header.name)).any
            (fun n => (t.insertNames cols).contains n) = true →
        (∀ d ∈ data, d ≠ []) →
        (t.insert cols data).2 = Option.none →
        t.insertAssigned cols data = List.range' (m + 1) data.length)
    ∧ (∀ (t : Table) (sel : List RowId), (t.delete sel).nextRowId = t.nextRowId)
    ∧ (∀ (t : Table) (a : List (String × Literal)) (sel : List RowId),
        ((t.update a sel).1).nextRowId = t.nextRowId)
    ∧ (∀ t : Table, (t.truncate).nextRowId = t.nextRowId) := by
  refine ⟨runAssigned_pairwise ops t0, ?_, nextRowId_delete, nextRowId_update,
    nextRowId_truncate⟩
  intro t cols data m hlast hkeep hne hok
  have heq : t.nextRowId = m + 1 := by
    simp [Table.nextRowId, hlast, optNext]
  have hok' : (insertRows (fun n => (t.insertNames cols).contains n)
      t.columns t.nextRowId data).2.2 = Option.none := hok
  have h := insertRows_range (fun n => (t.insertNames cols).contains n) data
    t.columns t.nextRowId hkeep hne hok'
  show (insertRows (fun n => (t.insertNames cols).contains n)
      t.columns t.nextRowId data).2.1 = List.range' (m + 1) data.length
  rw [h, heq]

/-- **C4** witness: on the two-row fixture table (watermark 1), an insert
allocates exactly `[2]`, and the allocation history of an
insert/delete/truncate/insert sequence is strictly increasing step over
step. -/
theorem c4_rowid_allocation_witness :
    List.Pairwise (fun xs ys => ∀ a ∈ xs, ∀ b ∈ ys, a < b)
      (tUpd.runAssigned
        [.insert [] [[.int 3, .str "c"]], .delete [0, 1], .truncate,
         .insert [] [[.int 4, .str "d"]]])
    ∧ tUpd.insertAssigned [] [[.int 3, .str "c"]] = List.range' 2 1 := by
  refine ⟨(c4_rowid_allocation tUpd _).1, ?_⟩
  exact (c4_rowid_allocation tUpd []).2.1 tUpd [] [[.int 3, .str "c"]] 1
    (by decide) (by decide) (by decide) (by decide)

/-! ### Delete-without-selection is Truncate -/

theorem mapFirstTable_deleteNone (name : String) :
    ∀ l : List Table,
      mapFirstTable name (deleteTableStmt Option.none) l
        = (mapFirstTable name (fun t => (t.truncate, ())) l).map
            (fun p => (p.1, Res.ok ()))
  | [] => rfl
  | t :: ts => by
    cases hn : strLower t.name == strLower name with
    | true => simp [mapFirstTable, hn, deleteTableStmt]
    | false =>
      have ih := mapFirstTable_deleteNone name ts
      simp only [mapFirstTable, hn, Bool.false_eq_true, if_false, ih]
      cases hg : mapFirstTable name (fun t => (t.truncate, ())) ts with
      | none => rfl
      | some q => simp

theorem truncate_isEmpty (t : Table) :
    ∀ c ∈ (t.truncate).columns, c.data.isEmpty = true := by
  intro c hc
  simp only [Table.truncate, List.mem_map] at hc
  obtain ⟨c0, _, rfl⟩ := hc
  cases hcd : c0.data <;> simp [ColumnData.truncate, ColumnData.isEmpty, hcd]

theorem getAsString_empty {cd : ColumnData} (h : cd.isEmpty = true) (i : RowId) :
    cd.getAsString i = Option.none := by
  cases cd <;> rename_i m <;> cases m <;>
    first
      | rfl
      | simp [ColumnData.isEmpty] at h

theorem len_empty {cd : ColumnData} (h : cd.isEmpty = true) : cd.len = 0 := by
  cases cd <;> rename_i m <;> cases m <;>
    first
      | rfl
      | simp [ColumnData.isEmpty] at h

theorem foldrMax_zero : ∀ (l : List Nat), (∀ x ∈ l, x = 0) → l.foldr Nat.max 0 = 0
  | [], _ => rfl
  | a :: l, h => by
    have ha := h a (List.mem_cons_self _ _)
    have hl := foldrMax_zero l (fun x hx => h x (List.mem_cons_of_mem _ hx))
    show Nat.max a (l.foldr Nat.max 0) = 0
    rw [ha, hl]
    exact Nat.max_self 0

theorem viewNew_rows_nil {cols : List OutColumn}
    (h : ∀ c ∈ cols, c.data.isEmpty = true) : (View.new cols).rows = [] := by
  have hmax : (cols.map (fun c => c.data.len)).foldr Nat.max 0 = 0 := by
    refine foldrMax_zero _ ?_
    intro x hx
    obtain ⟨c, hc, rfl⟩ := List.mem_map.mp hx
    exact len_empty (h c hc)
  have hrow : ∀ c ∈ cols, ((c.data.getAsString 0).getD "").isEmpty = true := by
    intro c hc
    rw [getAsString_empty (h c hc)]
    rfl
  simpa [View.new, hmax] using hrow

theorem evalIdent_data_from_table {t : Table} {i : Ident} {cs : List OutColumn}
    (h : Evaluator.evalIdent (some t) i = .ok cs) :
    ∀ c ∈ cs, ∃ tc ∈ t.columns, c.data = tc.data := by
  cases i with
  | wildcard =>
    simp only [Evaluator.evalIdent] at h
    injection h with h
    subst h
    intro c hc
    obtain ⟨tc, htc, rfl⟩ := List.mem_map.mp hc
    exact ⟨tc, htc, rfl⟩
  | named n =>
    simp only [Evaluator.evalIdent] at h
    cases hcol : t.colFromName n with
    | none => rw [hcol] at h; exact Res.noConfusion h
    | some c0 =>
      rw [hcol] at h
      injection h with h
      subst h
      intro c hc
      have hc' : c = colToOut c0 := by simpa using hc
      subst hc'
      exact ⟨c0, List.mem_of_find?_eq_some hcol, rfl⟩

theorem evalExprs_idents_empty {t : Table} :
    ∀ (ps : List Expression) (cs : List OutColumn),
      (∀ p ∈ ps, ∃ i, p = Expression.ident i) →
      (∀ c ∈ t.columns, c.data.isEmpty = true) →
      evalExprs (some t) ps = .ok cs →
      ∀ c ∈ cs, c.data.isEmpty = true
  | [], cs, _, _, h => by
    injection h with h
    subst h
    intro c hc
    cases hc
  | p :: ps, cs, hid, hemp, h => by
    obtain ⟨i, rfl⟩ := hid p (List.mem_cons_self _ _)
    simp only [evalExprs] at h
    cases he : Evaluator.evalIdent (some t) i with
    | ok cs1 =>
      rw [show Evaluator.eval (some t) (.ident i)
            = Evaluator.evalIdent (some t) i from rfl, he] at h
      cases hrest : evalExprs (some t) ps with
      | ok cs2 =>
        rw [hrest] at h
        injection h with h
        subst h
        intro c hc
        rcases List.mem_append.mp hc with h1 | h2
        · obtain ⟨tc, htc, heq⟩ := evalIdent_data_from_table he c h1
          rw [heq]
          exact hemp tc htc
        · exact evalExprs_idents_empty ps cs2
            (fun q hq => hid q (List.mem_cons_of_mem _ hq)) hemp hrest c h2
      | err e => rw [hrest] at h; exact Res.noConfusion h
      | crash => rw [hrest] at h; exact Res.noConfusion h
    | err e =>
      rw [show Evaluator.eval (some t) (.ident i)
            = Evaluator.evalIdent (some t) i from rfl, he] at h
      exact Res.noConfusion h
    | crash =>
      rw [show Evaluator.eval (some t) (.ident i)
            = Evaluator.evalIdent (some t) i from rfl, he] at h
      exact Res.noConfusion h

/-- **C9** (confirmed): `Delete` without a selection and `Truncate` produce
*identical* `Database::execute` results (state and return value), so all
later observations agree; truncation empties every column while preserving
the allocation watermark; on a table whose columns are all empty, a Select
of identifier projections (with only sentinel selections) yields a `View`
with zero rows; and every id a later insert assigns is at least the old
watermark (never a reused `RowId`). -/
theorem c9_delete_none_truncate (db : Database) (name : String) :
    db.execute (.delete name Option.none) = db.execute (.truncate name)
    ∧ (∀ t : Table, ∀ c ∈ (t.truncate).columns, c.data.isEmpty = true)
    ∧ (∀ t : Table, (t.truncate).nextRowId = t.nextRowId)
    ∧ (∀ (db' : Database) (s : Select) (t : Table) (pcols : List OutColumn),
        s.fromTable.bind
            (fun n => db'.tables.find? (fun tb => strLower n == strLower tb.name))
          = some t →
        (∀ c ∈ t.columns, c.data.isEmpty = true) →
        (∀ p ∈ s.projection, ∃ i, p = Expression.ident i) →
        evalSelections (some t) s.selection = .ok [] →
        evalExprs (some t) s.projection = .ok pcols →
        (db'.execute (.select s)).2 = .ok (some (View.new pcols))
        ∧ (View.new pcols).rows = [])
    ∧ (∀ (t : Table) (cols : List String) (data : List (List Literal)),
        ∀ a ∈ (t.truncate).insertAssigned cols data, t.nextRowId ≤ a) := by
  refine ⟨?_, truncate_isEmpty, nextRowId_truncate, ?_, ?_⟩
  · simp only [Database.execute, mapFirstTable_deleteNone name db.tables]
    cases hg : mapFirstTable name (fun t => (t.truncate, ())) db.tables with
    | none => rfl
    | some q =>
      obtain ⟨ts, u⟩ := q
      rfl
  · intro db' s t pcols hfind hemp hid hsel hproj
    constructor
    · simp only [Database.execute, hfind, selectResult, hsel, hproj]
      simp
    · exact viewNew_rows_nil (evalExprs_idents_empty s.projection pcols hid hemp hproj)
  · intro t cols data a ha
    have hspec := insertRows_spec (fun n => ((t.truncate).insertNames cols).contains n)
      data (t.truncate).columns (t.truncate).nextRowId
      (le_of_eq (nextRowId_eq_colsNext _).symm)
    cases hrec : insertRows (fun n => ((t.truncate).insertNames cols).contains n)
        (t.truncate).columns (t.truncate).nextRowId data with
    | mk cols' r =>
      obtain ⟨ids, e⟩ := r
      rw [hrec] at hspec
      simp only at hspec
      have ha' : a ∈ ids := by
        simp only [Table.insertAssigned, hrec] at ha
        exact ha
      have hle := (hspec.1 a ha').1
      rwa [nextRowId_truncate] at hle

/-- **C9** witness: on the fixture database, delete-without-selection equals
truncate; a wildcard Select on the truncated table shows zero rows; and a
subsequent insert allocates only fresh ids. -/
theorem c9_delete_none_truncate_witness :
    dbUpd.execute (.delete "t" Option.none) = dbUpd.execute (.truncate "t")
    ∧ (({ tables := [tUpd.truncate] } : Database).execute (.select
          { fromTable := some "t", projection := [.ident .wildcard],
            selection := [.none] })).2
        = .ok (some (View.new ((tUpd.truncate).columns.map colToOut)))
    ∧ (View.new ((tUpd.truncate).columns.map colToOut)).rows = []
    ∧ (∀ a ∈ (tUpd.truncate).insertAssigned [] [[.int 9, .str "z"]],
        tUpd.nextRowId ≤ a) := by
  have h := c9_delete_none_truncate dbUpd "t"
  have h4 := h.2.2.2.1 { tables := [tUpd.truncate] }
    { fromTable := some "t", projection := [.ident .wildcard], selection := [.none] }
    (tUpd.truncate) ((tUpd.truncate).columns.map colToOut)
    (by decide)
    (h.2.1 tUpd)
    (by
      intro p hp
      rw [List.mem_singleton] at hp
      exact ⟨.wildcard, hp⟩)
    (by decide) (by decide)
  exact ⟨h.1, h4.1, h4.2, fun a ha => h.2.2.2.2 tUpd [] [[.int 9, .str "z"]] a ha⟩

/-! ### The primary-key index is always empty -/

theorem mapFirstTable_preserve {α : Type} (P : Table → Prop) (name : String)
    (f : Table → Table × α) (hf : ∀ t, P t → P (f t).1) :
    ∀ (l l' : List Table) (a : α),
      (∀ t ∈ l, P t) → mapFirstTable name f l = some (l', a) → ∀ t ∈ l', P t
  | [], _, _, _, he => by cases he
  | t :: ts, l', a, h, he => by
    cases hn : strLower t.name == strLower name with
    | true =>
      simp only [mapFirstTable, hn, if_true, Option.some.injEq, Prod.mk.injEq] at he
      obtain ⟨hl, _⟩ := he
      subst hl
      intro u hu
      rcases List.mem_cons.mp hu with rfl | hu'
      · exact hf t (h t (List.mem_cons_self _ _))
      · exact h u (List.mem_cons_of_mem _ hu')
    | false =>
      simp only [mapFirstTable, hn, Bool.false_eq_true, if_false] at he
      cases hrec : mapFirstTable name f ts with
      | none => rw [hrec] at he; cases he
      | some p =>
        obtain ⟨ts', b⟩ := p
        rw [hrec] at he
        simp only [Option.some.injEq, Prod.mk.injEq] at he
        obtain ⟨hl, _⟩ := he
        subst hl
        intro u hu
        rcases List.mem_cons.mp hu with rfl | hu'
        · exact h u (List.mem_cons_self _ _)
        · exact mapFirstTable_preserve P name f hf ts ts' b
            (fun v hv => h v (List.mem_cons_of_mem _ hv)) hrec u hu'

theorem executeSelect_fst (db : Database) (s : Select) :
    (db.execute (.select s)).1 = db := by
  simp only [Database.execute]
  cases selectResult (s.fromTable.bind
      (fun name => db.tables.find? (fun t => strLower name == strLower t.name))) s <;>
    rfl

theorem update_pkMap (t : Table) (a : List (String × Literal)) (sel : List RowId) :
    ((t.update a sel).1).pkMap = t.pkMap := rfl

theorem updateTableStmt_pkMap (a : List (String × Literal)) (selOpt : Option Expression)
    (t : Table) : ((updateTableStmt a selOpt t).1).pkMap = t.pkMap := by
  cases selOpt with
  | none => rfl
  | some sel =>
    cases hev : Evaluator.eval (some t) sel with
    | err e => simp [updateTableStmt, hev]
    | crash => simp [updateTableStmt, hev]
    | ok cols =>
      cases cols with
      | nil => simp [updateTableStmt, hev]
      | cons c cs =>
        cases cs with
        | cons d ds => simp [updateTableStmt, hev]
        | nil =>
          cases hkw : c.data.keysWhereTrue with
          | error e => simp [updateTableStmt, hev, hkw]
          | ok keys =>
            cases hu : (t.update a keys).2 with
            | none => simp [updateTableStmt, hev, hkw, hu, update_pkMap]
            | some e => simp [updateTableStmt, hev, hkw, hu, update_pkMap]

theorem deleteTableStmt_pkMap_nil (selOpt : Option Expression) (t : Table)
    (h : t.pkMap = []) : ((deleteTableStmt selOpt t).1).pkMap = [] := by
  cases selOpt with
  | none => exact h
  | some sel =>
    cases hev : Evaluator.eval (some t) sel with
    | err e => simpa [deleteTableStmt, hev] using h
    | crash => simpa [deleteTableStmt, hev] using h
    | ok cols =>
      cases cols with
      | nil => simpa [deleteTableStmt, hev] using h
      | cons c cs =>
        cases cs with
        | cons d ds => simpa [deleteTableStmt, hev] using h
        | nil =>
          cases hkw : c.data.keysWhereTrue with
          | error e => simpa [deleteTableStmt, hev, hkw] using h
          | ok keys =>
            have hd := delete_pkMap_nil keys t h
            simpa [deleteTableStmt, hev, hkw] using hd

theorem execute_pkMap_nil (db : Database) (q : Query)
    (h : ∀ t ∈ db.tables, t.pkMap = []) :
    ∀ t ∈ ((db.execute q).1).tables, t.pkMap = [] := by
  cases q with
  | createTable name defs =>
    simp only [Database.execute]
    split
    · exact h
    · cases hnew : Table.new (strUpper name) defs with
      | some t' =>
        intro t ht
        simp only at ht
        rcases List.mem_append.mp ht with h1 | h1
        · exact h t h1
        · have ht' : t = t' := by simpa using h1
          subst ht'
          simp only [Table.new] at hnew
          split at hnew
          · injection hnew with hnew
            rw [← hnew]
          · exact Option.noConfusion hnew
      | none => exact h
  | truncate name =>
    simp only [Database.execute]
    cases hm : mapFirstTable name (fun t => (t.truncate, ())) db.tables with
    | none => exact h
    | some p =>
      obtain ⟨ts, u⟩ := p
      exact mapFirstTable_preserve (fun t => t.pkMap = []) name _
        (fun t' h' => h') db.tables ts u h hm
  | select s =>
    rw [executeSelect_fst]
    exact h
  | insert nm cols srcs =>
    simp only [Database.execute]
    cases hm : mapFirstTable nm (fun t => t.insert cols srcs) db.tables with
    | none => exact h
    | some p =>
      obtain ⟨ts, eo⟩ := p
      have hpre := mapFirstTable_preserve (fun t => t.pkMap = []) nm
        (fun t => t.insert cols srcs) (fun t' h' => h') db.tables ts eo h hm
      cases eo <;> exact hpre
  | update nm a selOpt =>
    simp only [Database.execute]
    cases hm : mapFirstTable nm (updateTableStmt a selOpt) db.tables with
    | none => exact h
    | some p =>
      obtain ⟨ts, r⟩ := p
      have hpre := mapFirstTable_preserve (fun t => t.pkMap = []) nm
        (updateTableStmt a selOpt)
        (fun t' h' => by
          show ((updateTableStmt a selOpt t').1).pkMap = []
          rw [updateTableStmt_pkMap]
          exact h') db.tables ts r h hm
      cases r with
      | ok u => exact hpre
      | err e => exact hpre
      | crash => exact h
  | delete nm selOpt =>
    simp only [Database.execute]
    cases hm : mapFirstTable nm (deleteTableStmt selOpt) db.tables with
    | none => exact h
    | some p =>
      obtain ⟨ts, r⟩ := p
      have hpre := mapFirstTable_preserve (fun t => t.pkMap = []) nm
        (deleteTableStmt selOpt)
        (fun t' h' => deleteTableStmt_pkMap_nil selOpt t' h') db.tables ts r h hm
      cases r with
      | ok u => exact hpre
      | err e => exact hpre
      | crash => exact h
  | drop nm =>
    intro t ht
    exact h t (List.mem_of_mem_filter ht)

theorem runQueries_pkMap_nil : ∀ (qs : List Query) (db : Database),
    (∀ t ∈ db.tables, t.pkMap = []) →
    ∀ t ∈ (db.runQueries qs).tables, t.pkMap = []
  | [], _, h => h
  | q :: qs, db, h =>
    runQueries_pkMap_nil qs (db.execute q).1 (execute_pkMap_nil db q h)

/-- **C10** (confirmed, implicit): starting from any database whose tables
all have an empty primary-key index, every state reachable through the core
statements still has every `pk_map` empty — `Table::new` creates it empty
and no operation ever inserts into it — so delete's index removal removes
nothing and the value-to-`RowId` mapping is vacuously bijective. -/
theorem c10_pk_map_empty (db0 : Database) (qs : List Query)
    (h0 : ∀ t ∈ db0.tables, t.pkMap = []) :
    (∀ t ∈ (db0.runQueries qs).tables, t.pkMap = [])
    ∧ (∀ (t : Table) (sel : List RowId), t.pkMap = [] → (t.delete sel).pkMap = []) :=
  ⟨runQueries_pkMap_nil qs db0 h0, fun t sel h => delete_pkMap_nil sel t h⟩

/-- **C10** witness: a concrete statement sequence (insert, update, delete,
truncate, create, drop) keeps every table's primary-key index empty. -/
theorem c10_pk_map_empty_witness :
    ((dbUpd.runQueries
        [.insert "t" [] [[.int 3, .str "c"]],
         .update "t" [("name", .str "z")]
           (some (.binary .eq (.ident (.named "id")) (.literal (.int 1)))),
         .delete "t" (some (.binary .eq (.ident (.named "id")) (.literal (.int 2)))),
         .truncate "t",
         .createTable "u" [{ name := "id", dataType := .int, options := [.unique true] }],
         .drop "t"]).tables.all (fun t => t.pkMap.isEmpty)) = true := by
  rw [List.all_eq_true]
  intro t ht
  rw [(c10_pk_map_empty dbUpd _ (by decide)).1 t ht]
  rfl

end SocketDB
